import Mathlib

/-
Verification of the Topologist discovery worker and topology engine.
Shallow embedding of the worker sources (parsers.py, callback.py,
consumer.py, router_client.py, worker.py) together with proofs about
the embedded definitions.

Conventions:
  * Python strings are Lean `String`s; `None` for an optional string-valued
    field is rendered as `""` whenever the source only ever tests the value
    for truthiness (Python `if x:` is `x ≠ ""` for both `None` and `""`).
  * Python `time.time()` stamps are abstracted to a `Nat` parameter `now`.
  * Mongo collections are association lists keyed by the document `_id`;
    `update_one(..., upsert=True)` is an in-place update of the first
    matching key or an append.
-/

namespace Topologist

/-! ## Python-style string primitives (ASCII semantics) -/

/-- ASCII lower-casing of one character, as `str.lower` does on ASCII text. -/
def pyLowerChar (c : Char) : Char :=
  if 'A' ≤ c ∧ c ≤ 'Z' then Char.ofNat (c.toNat + 32) else c

/-- Characters matched by `\s` (Python whitespace, ASCII range). -/
def isSpaceChar (c : Char) : Bool :=
  c = ' ' || c = '\t' || c = '\n' || c = '\r' || c = '\x0b' || c = '\x0c'

/-- Drop leading and trailing whitespace from a character list (`str.strip`). -/
def stripChars (l : List Char) : List Char :=
  ((l.dropWhile isSpaceChar).reverse.dropWhile isSpaceChar).reverse

/-- `str.strip` on strings. -/
def pyStrip (s : String) : String := ⟨stripChars s.data⟩

/-- `str.lower` on strings (ASCII). -/
def pyLower (s : String) : String := ⟨s.data.map pyLowerChar⟩

/-- Does `p` occur as a leading segment of `l`? -/
def hasPre : List Char → List Char → Bool
  | [], _ => true
  | _ :: _, [] => false
  | p :: ps, c :: cs => p = c && hasPre ps cs

/-- Python `str.startswith` for our embeddings. -/
def pyStartsWith (s pre : String) : Bool := hasPre pre.data s.data

/-- Does `p` occur as a contiguous segment anywhere in `l`?  (Python `in`.) -/
def hasSub (p : List Char) : List Char → Bool
  | [] => hasPre p []
  | c :: cs => hasPre p (c :: cs) || hasSub p cs

/-- Python `needle in haystack` for strings. -/
def pyContains (haystack needle : String) : Bool := hasSub needle.data haystack.data

/-- Split a character list at every character satisfying `p`
(adjacent separators yield empty pieces; the pieces that matter to
callers are exactly those of `re.split` on a separator-run pattern,
which drops nothing but the separators). -/
def splitAtSep (p : Char → Bool) : List Char → List (List Char)
  | [] => [[]]
  | c :: rest =>
    match splitAtSep p rest with
    | [] => [[]]
    | t :: ts => if p c then [] :: t :: ts else (c :: t) :: ts

/-! ## parsers.py — capability classifier (`classify_from_cdp_caps`) -/

/-- The set `norm` accumulated by `classify_from_cdp_caps`
(only membership of the four tags is ever observed). -/
structure CapSet where
  router : Bool
  switch : Bool
  endDev : Bool
  ap : Bool
deriving Repr, DecidableEq

def CapSet.empty : CapSet := ⟨false, false, false, false⟩

/-- Processing of one token of the capability string: the token is
stripped, lower-cased by the caller; this is the if-chain in the
source's `for raw in tokens` loop. -/
def capToken (acc : CapSet) (t : List Char) : CapSet :=
  if t = [] then acc
  else if t.length = 1 then
    if t = ['r'] then { acc with router := true }
    else if t = ['b'] || t = ['s'] then { acc with switch := true }
    else if t = ['h'] then { acc with endDev := true }
    else if t = ['w'] then { acc with ap := true }
    else acc
  else if hasPre "router".data t then { acc with router := true }
  else if hasPre "switch".data t then { acc with switch := true }
  else if t = "bridge".data then { acc with switch := true }
  else if hasPre "host".data t || hasPre "station".data t then { acc with endDev := true }
  else if hasPre "wlan".data t || hasPre "wireless".data t then { acc with ap := true }
  else acc

/-- `classify_from_cdp_caps` from parsers.py: map raw CDP/LLDP capability
text (long words or single letters) to a device type tag. -/
def classify_from_cdp_caps (caps_text : String) : String :=
  if caps_text = "" then "unknown"
  else
    let txt := caps_text.data.map (fun c => if c = '(' || c = ')' || c = '/' then ' ' else c)
    let tokens := splitAtSep (fun c => isSpaceChar c || c = ',') (stripChars txt)
    let norm := tokens.foldl (fun acc raw => capToken acc ((stripChars raw).map pyLowerChar)) CapSet.empty
    if norm.router && norm.switch then "layer3_switch"
    else if norm.router then "router"
    else if norm.switch then "switch"
    else if norm.ap then "ap"
    else if norm.endDev then "end"
    else "unknown"

/-- `classify_from_lldp_caps` from parsers.py (both inputs optional in the
source; `None` is rendered as `""`). -/
def classify_from_lldp_caps (sys_caps enabled_caps : String) : String :=
  classify_from_cdp_caps (sys_caps ++ " " ++ enabled_caps)

/-! ## parsers.py — interface-name normalization (`normalize_if_name`) -/

/-- `\d` (ASCII). -/
def digitChar (c : Char) : Bool := '0' ≤ c && c ≤ '9'

/-- Case-insensitive literal match: consume `pat` from the front of the
input, comparing lower-cased characters; return the rest on success. -/
def ciMatch : List Char → List Char → Option (List Char)
  | [], rest => some rest
  | _ :: _, [] => none
  | a :: as, c :: cs => if pyLowerChar a == pyLowerChar c then ciMatch as cs else none

/-- One alternative of a `^(A|B|...)(?=\d)` pattern: the alternative must
match case-insensitively at the start and be followed by a digit
(the `(?=\d)` lookahead, which consumes nothing). -/
def tryAlt (alt : String) (s : List Char) : Option (List Char) :=
  match ciMatch alt.data s with
  | none => none
  | some rest =>
    match rest with
    | [] => none
    | c :: _ => if digitChar c then some rest else none

/-- Regex alternation is leftmost-first: the first alternative that lets
the whole pattern (including the lookahead) succeed wins. -/
def ifPatAlts (alts : List String) (s : List Char) : Option (List Char) :=
  alts.findSome? (fun alt => tryAlt alt s)

/-- `_IF_PREFIX_MAP` from parsers.py: each entry is the alternation list of
one compiled pattern together with the short replacement form. -/
def _IF_PREFIX_MAP : List (List String × String) :=
  [ (["GigabitEthernet", "GigEthernet", "GigEth", "Gi"], "Gi"),
    (["TenGigabitEthernet", "TenGigE", "Te"], "Te"),
    (["FastEthernet", "FastEth", "Fa"], "Fa"),
    (["Ethernet", "Eth", "Et"], "Et"),
    (["Port-channel", "Port-Channel", "Po"], "Po"),
    (["Loopback", "Lo"], "Lo"),
    (["Vlan", "Vl"], "Vl") ]

/-- `normalize_if_name` on character lists: empty input returned as is,
else strip, then the first pattern whose anchored match succeeds has its
matched prefix replaced by the short form (`pattern.sub(short, name, 1)`
with a `^`-anchored pattern); no match returns the stripped name. -/
def normChars (name : List Char) : List Char :=
  if name = [] then name
  else
    let n := stripChars name
    match _IF_PREFIX_MAP.findSome? (fun pr => (ifPatAlts pr.1 n).map (fun rest => pr.2.data ++ rest)) with
    | some r => r
    | none => n

/-- `normalize_if_name` from parsers.py. -/
def normalize_if_name (name : String) : String := ⟨normChars name.data⟩

/-! ## Data model (schemas of §3 of the spec, as used by the worker code)

Optional string-valued fields that the source only tests for truthiness
are plain `String`s with `""` standing for Python `None`/missing. -/

/-- One parsed neighbor link (output dict of the parsers). -/
structure Link where
  local_if : String
  remote_sysname : String
  remote_port : String
  remote_mgmt_ip : String
  device_type : Option String := none
deriving Repr, DecidableEq

/-- A `devices` collection document. -/
structure Device where
  oid : String
  host : String
  display_name : String
  platform : String := "cisco_ios"
  identity_id : Option String := none
  username : String := ""
  password : String := ""
  status : String := "unknown"
  depth : Option Int := none
  parent : String := ""
  device_type : Option String := none
  alternate_ips : List String := []
  interface_map : List (String × String) := []
  created_at : Nat := 0
  last_seen : Option Nat := none
  error : Option String := none
deriving Repr, DecidableEq

/-- An `identities` collection document. -/
structure Identity where
  oid : String
  username : String := ""
  password : String := ""
  is_default : Bool := false
deriving Repr, DecidableEq

/-- A `graph_nodes` document (keyed by the canonical node id). -/
structure NodeDoc where
  id : String
  first_seen : Nat
  last_seen : Nat
deriving Repr, DecidableEq

/-- A `graph_links` document (keyed by the edge id `a|b`). -/
structure EdgeDoc where
  a : String
  b : String
  ifA : String
  ifB : String
  first_seen : Nat
  last_seen : Nat
deriving Repr, DecidableEq

/-- A topology snapshot document (append-only). -/
structure Snapshot where
  created_at : Nat
  seed : String
  nodes : List String
  links : List (String × String × String × String)
  interface_brief : String
deriving Repr, DecidableEq

/-- Dict assignment `m[k] = v` on an insertion-ordered mapping. -/
def mapSet (k v : String) : List (String × String) → List (String × String)
  | [] => [(k, v)]
  | (k0, v0) :: rest => if k0 = k then (k0, v) :: rest else (k0, v0) :: mapSet k v rest

/-! ## callback.py / worker.py — graph consolidation -/

/-- Canonicalization of the remote endpoint of a link, shared verbatim by
`build_graph` and `upsert_graph` (callback.py lines 24-50 / 69-94,
worker.py `upsert_graph`): with a management IP, prefer the device whose
`alternate_ips` holds the IP, else the device whose `host` is the IP, else
the device with the same `display_name` and a non-empty `host`, else the
IP itself; without an IP use `name:<sysname>`; with neither, skip
(`none`).  `find_one` returns the first matching document. -/
def canonicalRemoteId (devices : List Device) (r_ip r_name : String) : Option String :=
  if r_ip ≠ "" then
    match devices.find? (fun d => d.alternate_ips.contains r_ip) with
    | some d => some d.host
    | none =>
      match devices.find? (fun d => d.host == r_ip) with
      | some d => some d.host
      | none =>
        match devices.find? (fun d => d.display_name == r_name && d.host != "") with
        | some d => some d.host
        | none => some r_ip
  else if r_name ≠ "" then some ("name:" ++ r_name)
  else none

/-- Total lexicographic order (as a Bool) on the 4-tuples that
`build_graph` collects into its edge set, mirroring Python tuple
comparison. -/
def tup4Le (u v : String × String × String × String) : Bool :=
  u.1 < v.1 || (u.1 = v.1 && (u.2.1 < v.2.1 || (u.2.1 = v.2.1 &&
    (u.2.2.1 < v.2.2.1 || (u.2.2.1 = v.2.2.1 && u.2.2.2 ≤ v.2.2.2)))))

/-- `build_graph` from callback.py: the pure node/edge projection used for
topology snapshots.  Python `set`s are lists without duplicate inserts;
`sorted` at the end makes the set iteration order immaterial. -/
def build_graph (seed_ip : String) (links : List Link) (devices : List Device) :
    List String × List (String × String × String × String) :=
  let step := fun (acc : List String × List (String × String × String × String)) (link : Link) =>
    match canonicalRemoteId devices link.remote_mgmt_ip link.remote_sysname with
    | none => acc
    | some remote_id =>
      let nodes := if acc.1.contains remote_id then acc.1 else acc.1 ++ [remote_id]
      let ab := if remote_id < seed_ip then (remote_id, seed_ip) else (seed_ip, remote_id)
      let e := if ab.1 = seed_ip then (ab.1, ab.2, link.local_if, link.remote_port)
               else (ab.1, ab.2, link.remote_port, link.local_if)
      let edges := if acc.2.contains e then acc.2 else acc.2 ++ [e]
      (nodes, edges)
  let acc := links.foldl step ([seed_ip], [])
  (acc.1.mergeSort (fun x y => x ≤ y), acc.2.mergeSort tup4Le)

/-- `update_one({"_id": key}, {"$set": {..., "last_seen": now}, "$setOnInsert":
{"first_seen": now}}, upsert=True)` on `graph_nodes`. -/
def upsertNode (key : String) (now : Nat) : List (String × NodeDoc) → List (String × NodeDoc)
  | [] => [(key, ⟨key, now, now⟩)]
  | (k, d) :: rest =>
    if k = key then (k, ⟨key, d.first_seen, now⟩) :: rest
    else (k, d) :: upsertNode key now rest

/-- The analogous upsert on `graph_links`. -/
def upsertEdge (key a b ifA ifB : String) (now : Nat) :
    List (String × EdgeDoc) → List (String × EdgeDoc)
  | [] => [(key, ⟨a, b, ifA, ifB, now, now⟩)]
  | (k, d) :: rest =>
    if k = key then (k, ⟨a, b, ifA, ifB, d.first_seen, now⟩) :: rest
    else (k, d) :: upsertEdge key a b ifA ifB now rest

/-- The two upserted graph collections. -/
structure GraphState where
  nodes : List (String × NodeDoc)
  links : List (String × EdgeDoc)
deriving Repr, DecidableEq

/-- The body of `upsert_graph`'s `for link in links` loop (callback.py
lines 69-119; worker.py carries the identical code). -/
def upsertGraphStep (devices : List Device) (seed_ip : String) (now : Nat)
    (st : GraphState) (link : Link) : GraphState :=
  match canonicalRemoteId devices link.remote_mgmt_ip link.remote_sysname with
  | none => st
  | some remote_id =>
    let nodes1 := upsertNode seed_ip now st.nodes
    let nodes2 := upsertNode remote_id now nodes1
    let ab := if remote_id < seed_ip then (remote_id, seed_ip) else (seed_ip, remote_id)
    let if_a := if ab.1 = seed_ip then link.local_if else link.remote_port
    let if_b := if ab.2 = remote_id then link.remote_port else link.local_if
    let edge_id := ab.1 ++ "|" ++ ab.2
    ⟨nodes2, upsertEdge edge_id ab.1 ab.2 if_a if_b now st.links⟩

/-- `upsert_graph` from callback.py / worker.py. -/
def upsert_graph (seed_ip : String) (links : List Link) (devices : List Device)
    (now : Nat) (st : GraphState) : GraphState :=
  links.foldl (upsertGraphStep devices seed_ip now) st

/-! ## consumer.py — discovery job messages and the cascade trigger -/

/-- A `discovery` queue message. -/
structure JobMsg where
  typ : String := "discovery"
  device_id : String
  depth : Int
  auto_recursive : Bool
  max_depth : Int
deriving Repr, DecidableEq

/-- `trigger_discover_all` from consumer.py, as the list of messages it
publishes: one job per device with status `ready` or `error`, carrying
`depth = int(d.get("depth", 0))`, `auto_recursive=False`, `max_depth=3`
(broker publishing is modelled as reliable). -/
def trigger_discover_all (devices : List Device) : List JobMsg :=
  (devices.filter (fun d => d.status == "ready" || d.status == "error")).map
    (fun d => { device_id := d.oid, depth := d.depth.getD 0, auto_recursive := false, max_depth := 3 })

/-! ## router_client.py — reachability filter and BFS path planner -/

/-- `get_reachable_devices` from router_client.py. -/
def get_reachable_devices (devices : List Device) : List Device :=
  devices.filter (fun d => (d.status == "ready" || d.status == "scanning") && d.host != "")

/-- `graph[k]` on the adjacency dict (`None` when `k not in graph`). -/
def adjLookup (g : List (String × List String)) (k : String) : Option (List String) :=
  (g.find? (fun p => p.1 == k)).map (fun p => p.2)

/-- `graph.setdefault(k, [])`-style key creation (`if k not in graph: graph[k]=[]`). -/
def adjEnsure (g : List (String × List String)) (k : String) : List (String × List String) :=
  if (adjLookup g k).isSome then g else g ++ [(k, [])]

/-- `graph[k].append(v)` (key assumed present). -/
def adjAppendVal (k v : String) : List (String × List String) → List (String × List String)
  | [] => []
  | (k0, vs) :: rest =>
    if k0 = k then (k0, vs ++ [v]) :: rest else (k0, vs) :: adjAppendVal k v rest

/-- The adjacency dict that `find_path_to_device` builds from all
`graph_links` documents: both endpoints become keys, and each link
appends each endpoint to the other's neighbor list. -/
def buildAdj (edges : List (String × String)) : List (String × List String) :=
  edges.foldl
    (fun g e => adjAppendVal e.2 e.1 (adjAppendVal e.1 e.2 (adjEnsure (adjEnsure g e.1) e.2))) []

/-- All node names mentioned by the adjacency dict (keys and neighbor
entries); the BFS visited set can only grow inside this finite set, which
bounds the loop. -/
def adjNodes (g : List (String × List String)) : Finset String :=
  (g.map Prod.fst).toFinset ∪ (g.map Prod.snd).flatten.toFinset

/-- Is `newPath` strictly better than the best path found so far
(`best_path is None or len(new_path) < len(best_path)`)? -/
def bestBetter (best : Option (List String)) (newPath : List String) : Bool :=
  match best with
  | none => true
  | some b => newPath.length < b.length

/-- The `for neighbor in graph[current]` loop of the BFS: skip visited
neighbors, mark fresh ones visited, record a candidate and break when the
target is hit, otherwise enqueue.  Returns the new visited set, the
entries appended to the queue, and the (possibly improved) best path. -/
def processNbrs (target : String) (path : List String) :
    List String → Finset String → Option (List String) →
      Finset String × List (String × List String) × Option (List String)
  | [], visited, best => (visited, [], best)
  | n :: ns, visited, best =>
    if n ∈ visited then processNbrs target path ns visited best
    else
      let visited1 := insert n visited
      let newPath := path ++ [n]
      if n = target then
        (visited1, [], if bestBetter best newPath then some newPath else best)
      else
        let r := processNbrs target path ns visited1 best
        (r.1, (n, newPath) :: r.2.1, r.2.2)

/-- Measure for the BFS `while queue` loop: every iteration pops one entry
and enqueues only nodes that are freshly marked visited, all of which live
in `adjNodes g`. -/
def bfsMeasure (g : List (String × List String)) (queue : List (String × List String))
    (visited : Finset String) : Nat :=
  queue.length + ((adjNodes g).filter (fun v => v ∉ visited)).card

theorem processNbrs_measure (g : List (String × List String)) (target : String)
    (path : List String) (S : Finset String) :
    ∀ (nbrs : List String) (visited : Finset String) (best : Option (List String)),
      (∀ v ∈ nbrs, v ∈ adjNodes g) →
      (processNbrs target path nbrs visited best).2.1.length +
        ((adjNodes g).filter (fun v => v ∉ (processNbrs target path nbrs visited best).1)).card ≤
        ((adjNodes g).filter (fun v => v ∉ visited)).card := by
  intro nbrs
  induction nbrs with
  | nil => intro visited best _; simp [processNbrs]
  | cons n ns ih =>
    intro visited best hmem
    by_cases hv : n ∈ visited
    · simpa [processNbrs, hv] using ih visited best (fun v hv2 => hmem v (List.mem_cons_of_mem _ hv2))
    · have hnS : n ∈ adjNodes g := hmem n (List.mem_cons_self _ _)
      have hcard : ((adjNodes g).filter (fun v => v ∉ insert n visited)).card + 1 =
          ((adjNodes g).filter (fun v => v ∉ visited)).card := by
        have hsub : (adjNodes g).filter (fun v => v ∉ insert n visited) =
            ((adjNodes g).filter (fun v => v ∉ visited)).erase n := by
          ext x
          simp only [Finset.mem_filter, Finset.mem_erase, Finset.mem_insert]
          tauto
        rw [hsub]
        exact Finset.card_erase_add_one (by simp [Finset.mem_filter, hnS, hv])
      by_cases ht : n = target
      · subst ht
        have hres : processNbrs n path (n :: ns) visited best =
            (insert n visited, [],
              if bestBetter best (path ++ [n]) then some (path ++ [n]) else best) := by
          rw [processNbrs]; simp [hv]
        rw [hres]
        simp only [List.length_nil, Nat.zero_add]
        omega
      · have ihx := ih (insert n visited) best (fun v hv2 => hmem v (List.mem_cons_of_mem _ hv2))
        have hres : processNbrs target path (n :: ns) visited best =
            ((processNbrs target path ns (insert n visited) best).1,
              (n, path ++ [n]) :: (processNbrs target path ns (insert n visited) best).2.1,
              (processNbrs target path ns (insert n visited) best).2.2) := by
          rw [processNbrs]; simp [hv, ht]
        rw [hres]
        simp only [List.length_cons]
        omega

theorem processNbrs_mem_adjNodes (g : List (String × List String)) (target : String)
    (path : List String) :
    ∀ (nbrs : List String) (visited : Finset String) (best : Option (List String)),
      (∀ v ∈ nbrs, v ∈ adjNodes g) →
      ∀ e ∈ (processNbrs target path nbrs visited best).2.1, e.1 ∈ adjNodes g := by
  intro nbrs
  induction nbrs with
  | nil => intro visited best _ e he; simp [processNbrs] at he
  | cons n ns ih =>
    intro visited best hmem e he
    by_cases hv : n ∈ visited
    · rw [processNbrs, if_pos hv] at he
      exact ih visited best (fun v hv2 => hmem v (List.mem_cons_of_mem _ hv2)) e he
    · by_cases ht : n = target
      · rw [processNbrs, if_neg hv] at he
        simp [ht] at he
      · rw [processNbrs, if_neg hv] at he
        simp only [if_neg ht] at he
        rcases List.mem_cons.mp he with h1 | h2
        · subst h1; exact hmem n (List.mem_cons_self _ _)
        · exact ih (insert n visited) best (fun v hv2 => hmem v (List.mem_cons_of_mem _ hv2)) e h2

theorem adjLookup_values_mem (g : List (String × List String)) (k : String)
    (nbrs : List String) (h : adjLookup g k = some nbrs) : ∀ v ∈ nbrs, v ∈ adjNodes g := by
  intro v hv
  unfold adjLookup at h
  rcases hfind : g.find? (fun p => p.1 == k) with _ | p
  · rw [hfind] at h; simp at h
  · rw [hfind] at h
    have h2 : p.2 = nbrs := by simpa using h
    have hpmem : p ∈ g := List.mem_of_find?_eq_some hfind
    have hsnd : p.2 ∈ g.map Prod.snd := List.mem_map_of_mem Prod.snd hpmem
    have hj : v ∈ (g.map Prod.snd).flatten := by
      rw [List.mem_flatten]
      exact ⟨p.2, hsnd, by rw [h2]; exact hv⟩
    unfold adjNodes
    simp only [Finset.mem_union, List.mem_toFinset]
    exact Or.inr hj

/-- The `while queue:` loop of `find_path_to_device`'s BFS (one starting
point).  `queue.pop(0)` is FIFO; a popped node absent from the dict is
skipped; otherwise its neighbor list is processed and fresh entries are
appended. -/
def bfsLoop (g : List (String × List String)) (target : String) :
    List (String × List String) → Finset String → Option (List String) → Option (List String)
  | [], _, best => best
  | (current, path) :: rest, visited, best =>
    match hl : adjLookup g current with
    | none => bfsLoop g target rest visited best
    | some nbrs =>
      let r := processNbrs target path nbrs visited best
      bfsLoop g target (rest ++ r.2.1) r.1 r.2.2
termination_by queue visited best => bfsMeasure g queue visited
decreasing_by
  · simp only [bfsMeasure, List.length_cons]
    omega
  · simp only [bfsMeasure, List.length_append, List.length_cons]
    have h1 := processNbrs_measure g target path (adjNodes g) nbrs visited best
      (adjLookup_values_mem g current nbrs hl)
    omega

/-- The `for start_ip in sorted(directly_reachable_ips)` loop: an exact
match returns `[target]` immediately; otherwise one BFS run per start
feeds the shared `best_path`. -/
def tryStartsBfs (g : List (String × List String)) (target : String) :
    List String → Option (List String) → Option (List String)
  | [], best => best
  | s :: ss, best =>
    if s = target then some [target]
    else tryStartsBfs g target ss (bfsLoop g target [(s, [s])] {s} best)

/-- `find_path_to_device` from router_client.py.  The TCP reachability
probe (`get_directly_reachable_devices`, a socket/cache effect) is
abstracted by the `startIps` set it returns; `edges` is the `(a, b)`
projection of the `graph_links` collection. -/
def find_path_to_device (target_ip : String) (reachable_devices : List Device)
    (edges : List (String × String)) (startIps : Finset String) : Option (List String) :=
  if reachable_devices.isEmpty then none
  else
    let g := buildAdj edges
    if startIps = ∅ then none
    else tryStartsBfs g target_ip (startIps.sort (fun x y => x ≤ y)) none

/-! ## router_client.py — chained-SSH prompt-reaction loop
(`connect_with_jump_hosts`).  Each `send_command_timing` call is one
interaction with the remote side; its reply is the next value of the
scripted oracle `resp : Nat → String`, indexed by a running send counter.
The wall-clock delay factors and read timeouts do not influence control
flow and are not modelled. -/

/-- State of one hop's prompt-reaction loop: the send counter, the
commands sent so far, and the accumulated `output` variable. -/
structure HopSt where
  k : Nat
  sends : List String
  output : String
deriving Repr, DecidableEq

/-- `lines = output.strip().split('\n'); last_line = lines[-1] if lines else ""`. -/
def lastLineOf (output : String) : String :=
  match (splitAtSep (fun c => c = '\n') (stripChars output.data)).getLast? with
  | some piece => ⟨piece⟩
  | none => ""

/-- `last_line.strip().endswith('#') or last_line.strip().endswith('>')`. -/
def endsPrompt (line : String) : Bool :=
  (pyStrip line).data.getLast? = some '#' || (pyStrip line).data.getLast? = some '>'

/-- First block of one `while attempt < max_attempts` iteration: react to
a `password:` prompt by sending the password (replacing `output`). -/
def hopIterPw (resp : Nat → String) (password : String) (st : HopSt) : HopSt :=
  if pyContains (pyLower st.output) "password:" then
    ⟨st.k + 1, st.sends ++ [password], resp st.k⟩
  else st

/-- Second block: react to an SSH key prompt (on the possibly refreshed
output) by sending `yes`. -/
def hopIterYes (resp : Nat → String) (st : HopSt) : HopSt :=
  if pyContains (pyLower st.output) "(yes/no" || pyContains (pyLower st.output) "continue connecting" then
    ⟨st.k + 1, st.sends ++ ["yes"], resp st.k⟩
  else st

/-- Third block: the prompt check on the trimmed last line (the `break`
on success), else an empty re-read (replacing on empty output,
appending otherwise). -/
def hopIterRest (resp : Nat → String) (st : HopSt) : HopSt × Bool :=
  if (pyContains st.output "#" || pyContains st.output ">") && endsPrompt (lastLineOf st.output) then
    (st, true)
  else if st.output = "" || pyStrip st.output = "" then
    (⟨st.k + 1, st.sends ++ [""], resp st.k⟩, false)
  else
    (⟨st.k + 1, st.sends ++ [""], st.output ++ resp st.k⟩, false)

/-- One iteration of the `while attempt < max_attempts` loop, exactly as
the source sequences it: the password check, then the key-prompt check on
the (possibly refreshed) output, then the prompt check, then the two
wait-and-read branches.  Returns the new state and whether the `break`
for a detected prompt fired. -/
def hopIter (resp : Nat → String) (password : String) (st : HopSt) : HopSt × Bool :=
  hopIterRest resp (hopIterYes resp (hopIterPw resp password st))

/-- The per-hop loop: at most `fuel` (source: 10) iterations; stops early
when an iteration detects a prompt. -/
def hopLoop (resp : Nat → String) (password : String) : Nat → HopSt → HopSt × Bool
  | 0, st => (st, false)
  | fuel + 1, st =>
    let r := hopIter resp password st
    if r.2 then (r.1, true) else hopLoop resp password fuel r.1

/-- The loop as the claim reads it: the three reactions of one iteration
are mutually exclusive alternatives (password, else key prompt, else
prompt check), each iteration performing exactly one of the five actions.
This follows the claim text, for comparison with `hopIter`. -/
def hopIterExclusive (resp : Nat → String) (password : String) (st : HopSt) : HopSt × Bool :=
  if pyContains (pyLower st.output) "password:" then
    (⟨st.k + 1, st.sends ++ [password], resp st.k⟩, false)
  else if pyContains (pyLower st.output) "(yes/no" ||
          pyContains (pyLower st.output) "continue connecting" then
    (⟨st.k + 1, st.sends ++ ["yes"], resp st.k⟩, false)
  else if (pyContains st.output "#" || pyContains st.output ">") && endsPrompt (lastLineOf st.output) then
    (st, true)
  else if st.output = "" || pyStrip st.output = "" then
    (⟨st.k + 1, st.sends ++ [""], resp st.k⟩, false)
  else
    (⟨st.k + 1, st.sends ++ [""], st.output ++ resp st.k⟩, false)

/-- The per-hop loop under the claim's mutually exclusive reading. -/
def hopLoopExclusive (resp : Nat → String) (password : String) : Nat → HopSt → HopSt × Bool
  | 0, st => (st, false)
  | fuel + 1, st =>
    let r := hopIterExclusive resp password st
    if r.2 then (r.1, true) else hopLoopExclusive resp password fuel r.1

/-- Hops 1..N of `connect_with_jump_hosts`: resolve the hop's credentials
(target credentials for the last hop, device-inventory credentials
otherwise), send `ssh -l <user> <ip>`, then run the prompt-reaction loop
with `max_attempts = 10`; a loop that exhausts disconnects and fails the
whole chain (`return None`). -/
def chainHops (devices : List Device) (target_device : Device) (resp : Nat → String) :
    List String → Nat → List String → Option (Nat × List String)
  | [], k, sends => some (k, sends)
  | ip :: rest, k, sends =>
    let creds : Option (String × String) :=
      if rest = [] then
        some (if target_device.username ≠ "" then target_device.username else "admin",
              target_device.password)
      else
        match devices.find? (fun d => d.host == ip) with
        | none => none
        | some d => if d.username = "" || d.password = "" then none else some (d.username, d.password)
    match creds with
    | none => none
    | some (u, pw) =>
      let cmd := "ssh -l " ++ u ++ " " ++ ip
      let st0 : HopSt := ⟨k + 1, sends ++ [cmd], resp k⟩
      let r := hopLoop resp pw 10 st0
      if r.2 then chainHops devices target_device resp rest r.1.k r.1.sends else none

/-- `connect_with_jump_hosts` from router_client.py, returning the list of
strings sent over the chained session (the session abstraction) or `none`
when the chain fails.  `firstHopOk` is the outcome of the structured
`ConnectHandler` call to the first jump host; an exception there is
absorbed by the function's outer `except`, which returns `None`. -/
def connect_with_jump_hosts (target_device : Device) (jump_path : List String)
    (devices : List Device) (firstHopOk : Bool) (resp : Nat → String) : Option (List String) :=
  if jump_path.length < 2 then none
  else
    match jump_path with
    | [] => none
    | j0 :: rest =>
      match devices.find? (fun d => d.host == j0) with
      | none => none
      | some jd =>
        if jd.username = "" || jd.password = "" then none
        else if firstHopOk then (chainHops devices target_device resp rest 0 []).map (fun r => r.2)
        else none

/-! ## parsers.py — regex scanning primitives

Each `re` pattern of the source is rendered as an explicit scanner with
the same greedy/backtracking behavior on its restricted shape. -/

/-- `[A-Za-z0-9_]` (`\w`, ASCII). -/
def wordChar (c : Char) : Bool :=
  ('A' ≤ c && c ≤ 'Z') || ('a' ≤ c && c ≤ 'z') || digitChar c || c = '_'

/-- `[\w\/\.]`. -/
def wordSlashDot (c : Char) : Bool := wordChar c || c = '/' || c = '.'

/-- `[^\r\n]`. -/
def notCRLF (c : Char) : Bool := !(c = '\r' || c = '\n')

/-- `[0-9A-Fa-f:]` (the `_IPV6` class). -/
def hexColon (c : Char) : Bool :=
  digitChar c || ('A' ≤ c && c ≤ 'F') || ('a' ≤ c && c ≤ 'f') || c = ':'

/-- Case-sensitive literal: consume `lit` or fail. -/
def matchLit (lit : List Char) (l : List Char) : Option (List Char) :=
  if hasPre lit l then some (l.drop lit.length) else none

/-- Case-insensitive prefix test. -/
def hasPreCI : List Char → List Char → Bool
  | [], _ => true
  | _ :: _, [] => false
  | p :: ps, c :: cs => pyLowerChar p = pyLowerChar c && hasPreCI ps cs

/-- Case-insensitive literal (`re.I`). -/
def matchLitCI (lit : List Char) (l : List Char) : Option (List Char) :=
  if hasPreCI lit l then some (l.drop lit.length) else none

/-- `\s*(CLS+)` with regex backtracking: the whitespace run is consumed
greedily, then given back one character at a time until the character
class can take at least one character.  `wrev` is the reversed unconsumed
whitespace. -/
def wsBackAux (cls : Char → Bool) : List Char → List Char → Option (List Char × List Char)
  | [], r =>
    let g := r.takeWhile cls
    if g = [] then none else some (g, r.drop g.length)
  | c :: wrev2, r =>
    let g := r.takeWhile cls
    if g = [] then wsBackAux cls wrev2 (c :: r) else some (g, r.drop g.length)

/-- `\s*(CLS+)` at the current position. -/
def wsClassBack (cls : Char → Bool) (l : List Char) : Option (List Char × List Char) :=
  wsBackAux cls (l.takeWhile isSpaceChar).reverse (l.drop (l.takeWhile isSpaceChar).length)

/-- `[0-9]{1,3}\.`, trying group lengths from `k` down to 1 (regex
backtracking of the bounded repeat); returns the digits and the input
after the dot. -/
def digitsDotAux (l : List Char) : Nat → Option (List Char × List Char)
  | 0 => none
  | k + 1 =>
    match l.drop (k + 1) with
    | '.' :: rest2 => some (l.take (k + 1), rest2)
    | _ => digitsDotAux l k

/-- One `[0-9]{1,3}` group that must be followed by a literal dot. -/
def digitsThenDot (l : List Char) : Option (List Char × List Char) :=
  digitsDotAux l (min (l.takeWhile digitChar).length 3)

/-- The `_IPV4` pattern `([0-9]{1,3}(?:\.[0-9]{1,3}){3})` at the current
position; returns the matched text and the rest. -/
def matchIPv4 (l : List Char) : Option (List Char × List Char) := do
  let (g0, r0) ← digitsThenDot l
  let (g1, r1) ← digitsThenDot r0
  let (g2, r2) ← digitsThenDot r1
  let k := min (r2.takeWhile digitChar).length 3
  if k = 0 then none
  else some (g0 ++ '.' :: g1 ++ '.' :: g2 ++ '.' :: r2.take k, r2.drop k)

/-- `re.search`: try the position matcher at every offset, leftmost first. -/
def searchPos {α : Type} (m : List Char → Option α) : List Char → Option α
  | [] => m []
  | c :: cs =>
    match m (c :: cs) with
    | some r => some r
    | none => searchPos m cs

/-- `Interface:\s*([\w\/\.]+),` at one position. -/
def matchInterfaceAt (l : List Char) : Option String := do
  let r ← matchLit "Interface:".data l
  let (g, r2) ← wsClassBack wordSlashDot r
  match r2 with
  | ',' :: _ => some ⟨g⟩
  | _ => none

/-- literal + `\s*([^\r\n]+)` at one position (used by several patterns). -/
def matchLitLineAt (lit : List Char) (l : List Char) : Option String := do
  let r ← matchLit lit l
  let (g, _) ← wsClassBack notCRLF r
  some ⟨g⟩

/-- case-insensitive literal + `\s*([^\r\n]+)` at one position. -/
def matchLitLineCIAt (lit : List Char) (l : List Char) : Option String := do
  let r ← matchLitCI lit l
  let (g, _) ← wsClassBack notCRLF r
  some ⟨g⟩

/-- `IP address:\s*<IPv4>` at one position (`re.I`; the IPv4 class shares
no characters with `\s`, so greedy whitespace needs no backtracking). -/
def matchIPaddrAt (l : List Char) : Option String := do
  let r ← matchLitCI "IP address:".data l
  let (ip, _) ← matchIPv4 (r.dropWhile isSpaceChar)
  some ⟨ip⟩

/-- `Local Intf:\s*([\w\/\.]+)` at one position. -/
def matchLocalIntfAt (l : List Char) : Option String := do
  let r ← matchLit "Local Intf:".data l
  let (g, _) ← wsClassBack wordSlashDot r
  some ⟨g⟩

/-- Pattern 1 of `_find_mgmt_ip`:
`Management Address(?:es)?:\s*(?:IP:\s*)?<IPv4>` (`re.I`). -/
def mgmtP1At (l : List Char) : Option String := do
  let r ← matchLitCI "Management Address".data l
  let r2 ← match matchLitCI "es:".data r with
    | some x => some x
    | none => matchLit ":".data r
  let r3 := r2.dropWhile isSpaceChar
  match matchLitCI "IP:".data r3 with
  | some r4 =>
    match matchIPv4 (r4.dropWhile isSpaceChar) with
    | some (ip, _) => some ⟨ip⟩
    | none =>
      match matchIPv4 r3 with
      | some (ip, _) => some ⟨ip⟩
      | none => none
  | none =>
    match matchIPv4 r3 with
    | some (ip, _) => some ⟨ip⟩
    | none => none

/-- Pattern 2 of `_find_mgmt_ip`:
`Management Addresses:\s*(?:\r?\n)+\s*IP:\s*<IPv4>` (`re.I`): a whitespace
run containing at least one newline, then `IP:`, then the address. -/
def mgmtP2At (l : List Char) : Option String := do
  let r ← matchLitCI "Management Addresses:".data l
  let w := r.takeWhile isSpaceChar
  if w.contains '\n' then do
    let r2 ← matchLitCI "IP:".data (r.drop w.length)
    let (ip, _) ← matchIPv4 (r2.dropWhile isSpaceChar)
    some ⟨ip⟩
  else none

/-- Pattern 3 of `_find_mgmt_ip`:
`Management Address(?:es)?:\s*(?:IPv6:\s*)?([0-9A-Fa-f:]+)` (`re.I`). -/
def mgmtP3At (l : List Char) : Option String := do
  let r ← matchLitCI "Management Address".data l
  let r2 ← match matchLitCI "es:".data r with
    | some x => some x
    | none => matchLit ":".data r
  let r3 := r2.dropWhile isSpaceChar
  let direct := fun (s : List Char) =>
    let g := s.takeWhile hexColon
    if g = [] then none else some (⟨g⟩ : String)
  match matchLitCI "IPv6:".data r3 with
  | some r4 =>
    match direct (r4.dropWhile isSpaceChar) with
    | some ip => some ip
    | none => direct r3
  | none => direct r3

/-- Pattern 4 of `_find_mgmt_ip`:
`Management Addresses:\s*(?:\r?\n)+\s*IPv6:\s*([0-9A-Fa-f:]+)` (`re.I`). -/
def mgmtP4At (l : List Char) : Option String := do
  let r ← matchLitCI "Management Addresses:".data l
  let w := r.takeWhile isSpaceChar
  if w.contains '\n' then do
    let r2 ← matchLitCI "IPv6:".data (r.drop w.length)
    let g := (r2.dropWhile isSpaceChar).takeWhile hexColon
    if g = [] then none else some (⟨g⟩ : String)
  else none

/-- `_find_mgmt_ip` from parsers.py: the four searches in order, first
match wins, `none` when all fail. -/
def _find_mgmt_ip (b : List Char) : Option String :=
  match searchPos mgmtP1At b with
  | some ip => some ip
  | none =>
    match searchPos mgmtP2At b with
    | some ip => some ip
    | none =>
      match searchPos mgmtP3At b with
      | some ip => some ip
      | none => searchPos mgmtP4At b

/-! ## parsers.py — block splitting and the two parsers -/

/-- Python `str.splitlines` (ASCII terminators `\n`, `\r`, `\r\n`); no
trailing empty piece for a trailing terminator. -/
def splitLinesGo (acc : List Char) : List Char → List (List Char)
  | [] => [acc.reverse]
  | '\r' :: '\n' :: rest2 => acc.reverse :: (if rest2 = [] then [] else splitLinesGo [] rest2)
  | c :: rest =>
    if c = '\n' || c = '\r' then
      acc.reverse :: (if rest = [] then [] else splitLinesGo [] rest)
    else splitLinesGo (c :: acc) rest

/-- `str.splitlines` on a character list. -/
def splitLinesC (l : List Char) : List (List Char) :=
  if l = [] then [] else splitLinesGo [] l

theorem dropWhileLenLe (p : Char → Bool) (l : List Char) : (l.dropWhile p).length ≤ l.length := by
  induction l with
  | nil => simp
  | cons c cs ih =>
    by_cases h : p c
    · rw [List.dropWhile_cons_of_pos h]; simp; omega
    · rw [List.dropWhile_cons_of_neg h]

/-- `re.split(r"Device ID:\s*", text)`: each separator is the literal
followed by the greedy whitespace run.  The recursion is driven by a
fuel counter only so that the definition stays structurally recursive
(and hence kernel-evaluable); every step consumes at least one input
character, so `l.length + 1` fuel is never exhausted. -/
def splitDeviceIdF : Nat → List Char → List (List Char)
  | 0, _ => [[]]
  | _ + 1, [] => [[]]
  | fuel + 1, c :: cs =>
    if hasPre "Device ID:".data (c :: cs) then
      [] :: splitDeviceIdF fuel (((c :: cs).drop 10).dropWhile isSpaceChar)
    else
      match splitDeviceIdF fuel cs with
      | [] => [[]]
      | p :: ps => (c :: p) :: ps

def splitDeviceId (l : List Char) : List (List Char) :=
  splitDeviceIdF (l.length + 1) l

/-- `re.split(r"-{5,}", text)`: each separator is a maximal run of five or
more dashes; fuelled like `splitDeviceIdF`. -/
def splitDashRunsF : Nat → List Char → List (List Char)
  | 0, _ => [[]]
  | _ + 1, [] => [[]]
  | fuel + 1, c :: cs =>
    if c = '-' && 5 ≤ ((c :: cs).takeWhile (fun x => x = '-')).length then
      [] :: splitDashRunsF fuel ((c :: cs).dropWhile (fun x => x = '-'))
    else
      match splitDashRunsF fuel cs with
      | [] => [[]]
      | p :: ps => (c :: p) :: ps

def splitDashRuns (l : List Char) : List (List Char) :=
  splitDashRunsF (l.length + 1) l

/-- One CDP neighbor block (the body of `parse_cdp_cisco`'s loop over
`blocks[1:]`): first non-blank line is the sysname; the block is emitted
only when both the `Interface:` search succeeded and the sysname is
non-empty. -/
def parse_cdp_block (b : List Char) : Option Link :=
  let lines := (splitLinesC b).filter (fun ln => !(stripChars ln).isEmpty)
  match lines with
  | [] => none
  | first :: _ =>
    let sysname : String := ⟨stripChars first⟩
    let local_if := searchPos matchInterfaceAt b
    let portid := searchPos (matchLitLineAt "Port ID (outgoing port):".data) b
    let mgmt_ip := searchPos matchIPaddrAt b
    let caps := searchPos (matchLitLineCIAt "Capabilities:".data) b
    match local_if with
    | none => none
    | some li =>
      if sysname ≠ "" then
        some { local_if := normalize_if_name (pyStrip li),
               remote_sysname := sysname,
               remote_port := match portid with
                 | some p => normalize_if_name (pyStrip p)
                 | none => "",
               remote_mgmt_ip := match mgmt_ip with
                 | some ip => pyStrip ip
                 | none => "",
               device_type := some (classify_from_cdp_caps (match caps with
                 | some ctext => ctext
                 | none => "")) }
      else none

/-- `parse_cdp_cisco` from parsers.py. -/
def parse_cdp_cisco (text : String) : List Link :=
  match splitDeviceId text.data with
  | [] => []
  | _ :: blocks => blocks.filterMap parse_cdp_block

/-- One LLDP neighbor block (the body of `parse_lldp_cisco`'s loop):
blank blocks are skipped; the block is emitted only when both the
`Local Intf:` and `System Name:` searches succeeded. -/
def parse_lldp_block (b : List Char) : Option Link :=
  if (stripChars b).isEmpty then none
  else
    let local_if := searchPos matchLocalIntfAt b
    let sysname := searchPos (matchLitLineAt "System Name:".data) b
    let portdesc := searchPos (matchLitLineAt "Port Description:".data) b
    let sys_caps := searchPos (matchLitLineAt "System Capabilities:".data) b
    let en_caps := searchPos (matchLitLineAt "Enabled Capabilities:".data) b
    match local_if, sysname with
    | some li, some sn =>
      let mgmt_ip := _find_mgmt_ip b
      let dev_type := classify_from_lldp_caps
        (match sys_caps with | some s => s | none => "")
        (match en_caps with | some s => s | none => "")
      some { local_if := normalize_if_name (pyStrip li),
             remote_sysname := pyStrip sn,
             remote_port := match portdesc with
               | some p => normalize_if_name (pyStrip p)
               | none => "",
             remote_mgmt_ip := match mgmt_ip with
               | some ip => ip
               | none => "",
             device_type := some dev_type }
    | _, _ => none

/-- `parse_lldp_cisco` from parsers.py. -/
def parse_lldp_cisco (text : String) : List Link :=
  (splitDashRuns text.data).filterMap parse_lldp_block

/-! ## parsers.py — exception-explicit renderings

The only partial Python primitives the parsers touch are subscripting
(`lines[0]`) and `.group(1)` on a possibly-`None` match object.  These
renderings make each such access an `Except` step at exactly the places
the source performs it; totality of the parsers is the statement that
they always return `.ok`. -/

/-- `l[i]` — raises `IndexError` when out of range. -/
def listGetE {α : Type} (l : List α) (i : Nat) : Except String α :=
  match l.get? i with
  | some a => .ok a
  | none => .error "IndexError: list index out of range"

/-- `m.group(1)` — raises `AttributeError` when the match is `None`. -/
def groupE {α : Type} (m : Option α) : Except String α :=
  match m with
  | some a => .ok a
  | none => .error "AttributeError: NoneType object has no attribute group"

/-- `parse_cdp_cisco`'s per-block body with explicit exception points. -/
def parse_cdp_blockE (b : List Char) : Except String (Option Link) := do
  let lines := (splitLinesC b).filter (fun ln => !(stripChars ln).isEmpty)
  if lines.isEmpty then pure none
  else do
    let first ← listGetE lines 0
    let sysname : String := ⟨stripChars first⟩
    let local_if := searchPos matchInterfaceAt b
    let portid := searchPos (matchLitLineAt "Port ID (outgoing port):".data) b
    let mgmt_ip := searchPos matchIPaddrAt b
    let caps := searchPos (matchLitLineCIAt "Capabilities:".data) b
    if local_if.isSome && sysname ≠ "" then do
      let li ← groupE local_if
      pure (some { local_if := normalize_if_name (pyStrip li),
                   remote_sysname := sysname,
                   remote_port := match portid with
                     | some p => normalize_if_name (pyStrip p)
                     | none => "",
                   remote_mgmt_ip := match mgmt_ip with
                     | some ip => pyStrip ip
                     | none => "",
                   device_type := some (classify_from_cdp_caps (match caps with
                     | some ctext => ctext
                     | none => "")) })
    else pure none

/-- The loop of `parse_cdp_cisco` over its blocks, with explicit
exception points; emitted links accumulate in block order. -/
def parse_cdp_blocksE : List (List Char) → Except String (List Link)
  | [] => .ok []
  | b :: bs => do
    let o ← parse_cdp_blockE b
    let rest ← parse_cdp_blocksE bs
    .ok (match o with | some l => l :: rest | none => rest)

/-- `parse_cdp_cisco` with explicit exception points. -/
def parse_cdp_ciscoE (text : String) : Except String (List Link) :=
  match splitDeviceId text.data with
  | [] => pure []
  | _ :: blocks => parse_cdp_blocksE blocks

/-- `parse_lldp_cisco`'s per-block body with explicit exception points. -/
def parse_lldp_blockE (b : List Char) : Except String (Option Link) := do
  if (stripChars b).isEmpty then pure none
  else
    let local_if := searchPos matchLocalIntfAt b
    let sysname := searchPos (matchLitLineAt "System Name:".data) b
    let portdesc := searchPos (matchLitLineAt "Port Description:".data) b
    let sys_caps := searchPos (matchLitLineAt "System Capabilities:".data) b
    let en_caps := searchPos (matchLitLineAt "Enabled Capabilities:".data) b
    if local_if.isSome && sysname.isSome then do
      let li ← groupE local_if
      let sn ← groupE sysname
      let mgmt_ip := _find_mgmt_ip b
      let dev_type := classify_from_lldp_caps
        (match sys_caps with | some s => s | none => "")
        (match en_caps with | some s => s | none => "")
      pure (some { local_if := normalize_if_name (pyStrip li),
                   remote_sysname := pyStrip sn,
                   remote_port := match portdesc with
                     | some p => normalize_if_name (pyStrip p)
                     | none => "",
                   remote_mgmt_ip := match mgmt_ip with
                     | some ip => ip
                     | none => "",
                   device_type := some dev_type })
    else pure none

/-- The loop of `parse_lldp_cisco` over its blocks, with explicit
exception points. -/
def parse_lldp_blocksE : List (List Char) → Except String (List Link)
  | [] => .ok []
  | b :: bs => do
    let o ← parse_lldp_blockE b
    let rest ← parse_lldp_blocksE bs
    .ok (match o with | some l => l :: rest | none => rest)

/-- `parse_lldp_cisco` with explicit exception points. -/
def parse_lldp_ciscoE (text : String) : Except String (List Link) :=
  parse_lldp_blocksE (splitDashRuns text.data)

/-! ## callback.py — the discovery orchestrator (`do_discovery_job`) and
worker.py — the consumer callback.

External effects are supplied by an oracle (`DiscEnv`): the outcome of
the direct SSH attempt, the TCP reachability probe result, the chained
session oracle, and the text returned by the three device commands.  The
document store and the broker are modelled as reliable; an `Except`
`.error` is an exception escaping `do_discovery_job` to the consumer
loop. -/

/-- The whole document store touched by the worker. -/
structure Db where
  devices : List Device
  identities : List Identity
  graph_nodes : List (String × NodeDoc)
  graph_links : List (String × EdgeDoc)
  topology : List Snapshot
  nextOid : Nat
deriving Repr, DecidableEq

/-- Fresh `ObjectId`s for `insert_one`: a 24-digit hex string. -/
def oidOfNat (n : Nat) : String :=
  let ds := Nat.toDigits 16 n
  ⟨List.replicate (24 - ds.length) '0' ++ ds⟩

/-- `bson.ObjectId(s)` succeeds exactly on 24-character hex strings. -/
def isValidObjectId (s : String) : Bool :=
  s.length = 24 && s.data.all (fun c => digitChar c || ('a' ≤ c && c ≤ 'f') || ('A' ≤ c && c ≤ 'F'))

/-- `update_one({"_id": oid}, {"$set": ...})` on `devices`: rewrite the
first matching document. -/
def updateFirstDevice (oid : String) (f : Device → Device) : List Device → List Device
  | [] => []
  | d :: rest => if d.oid = oid then f d :: rest else d :: updateFirstDevice oid f rest

/-- The environment oracle for one discovery job. -/
structure DiscEnv where
  directOk : Bool
  directErr : String := "connection failed"
  startIps : Finset String
  chainFirstHopOk : Bool := true
  chainResp : Nat → String := fun _ => ""
  cdpOut : Except String String
  lldpOut : Except String String := .ok ""
  briefOut : Except String String := .ok ""

/-- The body of the neighbor-reconciliation loop of `do_discovery_job`
(callback.py lines 255-347).  The accumulator carries the store, the
`new_devices_added` flag, and the jobs published by `enqueue_discovery`
in the auto-recursive branch. -/
def reconcileLink (seed_ip : String) (depth : Int) (auto_recursive : Bool) (max_depth : Int)
    (defaults : Option Identity) (now : Nat)
    (acc : Db × Bool × List JobMsg) (link : Link) : Db × Bool × List JobMsg :=
  let db := acc.1
  let added := acc.2.1
  let jobs := acc.2.2
  let r_ip := link.remote_mgmt_ip
  let rname := link.remote_sysname
  let r_type := link.device_type
  let default_identity_id := defaults.map (fun i => i.oid)
  let default_username := match defaults with | some i => i.username | none => ""
  let default_password := match defaults with | some i => i.password | none => ""
  let default_status := if default_username ≠ "" && default_password ≠ "" then "ready" else "needs_creds"
  if r_ip = "" then
    -- neighbor without IP: placeholder record keyed by (display_name, host="")
    match db.devices.find? (fun d => d.display_name == rname && d.host == "") with
    | some _ => (db, added, jobs)
    | none =>
      let newDev : Device :=
        { oid := oidOfNat db.nextOid, host := "", display_name := rname,
          platform := "cisco_ios", identity_id := default_identity_id,
          username := default_username, password := default_password,
          status := default_status, depth := some (depth + 1), parent := seed_ip,
          device_type := if r_type = some "unknown" then none else r_type,
          created_at := now, last_seen := none }
      ({ db with devices := db.devices ++ [newDev], nextOid := db.nextOid + 1 }, true, jobs)
  else
    let existing_by_name := db.devices.find? (fun d => d.display_name == rname && d.host != "")
    let existing_by_ip := db.devices.find? (fun d => d.host == r_ip)
    match existing_by_name, existing_by_ip with
    | some eBN, none =>
      -- same name at a different IP: secondary interface of an existing device
      let db1 :=
        if !(eBN.alternate_ips.contains r_ip) && r_ip ≠ eBN.host then
          { db with devices := updateFirstDevice eBN.oid (fun d =>
              { d with alternate_ips := eBN.alternate_ips ++ [r_ip],
                       interface_map := mapSet r_ip link.remote_port eBN.interface_map }) db.devices }
        else db
      let db2 :=
        if eBN.depth.getD 999 > depth + 1 then
          { db1 with devices := updateFirstDevice eBN.oid (fun d =>
              { d with depth := some (depth + 1), parent := seed_ip }) db1.devices }
        else db1
      (db2, added, jobs)
    | _, some eBI =>
      -- a record already holds this IP: minimal patch
      let patch := fun (d : Device) =>
        let d1 := if eBI.display_name = "" then { d with display_name := rname } else d
        let d2 := if eBI.depth.getD 999 > depth + 1 then
            { d1 with depth := some (depth + 1), parent := seed_ip } else d1
        let d3 := if (match eBI.device_type with | none => true | some t => t = "") &&
                     (match r_type with | some t => t ≠ "" && t ≠ "unknown" | none => false) then
            { d2 with device_type := r_type } else d2
        if r_ip ≠ "" && link.remote_port ≠ "" then
          { d3 with interface_map := mapSet r_ip link.remote_port eBI.interface_map }
        else d3
      ({ db with devices := updateFirstDevice eBI.oid patch db.devices }, added, jobs)
    | none, none =>
      -- completely new device
      let newDev : Device :=
        { oid := oidOfNat db.nextOid, host := r_ip, display_name := rname,
          platform := "cisco_ios", identity_id := default_identity_id,
          username := default_username, password := default_password,
          status := default_status, depth := some (depth + 1), parent := seed_ip,
          device_type := if r_type = some "unknown" then none else r_type,
          alternate_ips := [],
          interface_map := if r_ip ≠ "" then [(r_ip, link.remote_port)] else [],
          created_at := now, last_seen := none }
      let db1 := { db with devices := db.devices ++ [newDev], nextOid := db.nextOid + 1 }
      let jobs1 :=
        if auto_recursive && depth + 1 ≤ max_depth then
          jobs ++ [{ device_id := newDev.oid, depth := depth + 1,
                     auto_recursive := auto_recursive, max_depth := max_depth }]
        else jobs
      (db1, true, jobs1)

/-- The tail of the `try` body after the last possible exception point
(callback.py lines 235-352): snapshot, graph upsert, `ready` transition,
default identity, the neighbor loop, and the cascade trigger. -/
def discoveryTail (dev : Device) (job : JobMsg) (db1 : Db) (links : List Link) (brief : String)
    (now : Nat) : Db × List JobMsg × List JobMsg :=
  let seed_ip := dev.host
  let bg := build_graph seed_ip links db1.devices
  let snap : Snapshot := ⟨now, seed_ip, bg.1, bg.2, brief⟩
  let db2 := { db1 with topology := db1.topology ++ [snap] }
  let g := upsert_graph seed_ip links db2.devices now ⟨db2.graph_nodes, db2.graph_links⟩
  let db3 := { db2 with graph_nodes := g.nodes, graph_links := g.links }
  let readyDevs := updateFirstDevice dev.oid (fun d => { d with status := "ready", last_seen := some now }) db3.devices
  let db4 := { db3 with devices := readyDevs }
  let defaults := db4.identities.find? (fun i => i.is_default)
  let r := links.foldl (reconcileLink seed_ip job.depth job.auto_recursive job.max_depth defaults now)
    (db4, false, [])
  let triggers := if r.2.1 then trigger_discover_all r.1.devices else []
  (r.1, r.2.2, triggers)

/-- The `try:` body of `do_discovery_job` (callback.py lines 155-352)
after the device was loaded and marked `scanning`.  An `.error` is an
exception that the `except` handler will catch.  Returns the store, the
auto-recursive jobs, and the cascade-trigger jobs. -/
def discoveryBody (dev : Device) (job : JobMsg) (db1 : Db) (env : DiscEnv) (now : Nat) :
    Except String (Db × List JobMsg × List JobMsg) :=
  let seed_ip := dev.host
  if seed_ip = "" || pyStrip seed_ip = "" then
    let devs := updateFirstDevice dev.oid (fun d => { d with status := "needs_ip", last_seen := some now }) db1.devices
    .ok ({ db1 with devices := devs }, [], [])
  else if dev.username = "" || dev.password = "" then
    let devs := updateFirstDevice dev.oid (fun d => { d with status := "needs_creds" }) db1.devices
    .ok ({ db1 with devices := devs }, [], [])
  else do
    -- direct connection, else path planning plus chained SSH
    let _usedProxy : Bool ←
      if env.directOk then Except.ok false
      else
        let reachable := get_reachable_devices db1.devices
        let edges := db1.graph_links.map (fun kv => (kv.2.a, kv.2.b))
        match find_path_to_device seed_ip reachable edges env.startIps with
        | some path =>
          if 2 ≤ path.length then
            match connect_with_jump_hosts dev path db1.devices env.chainFirstHopOk env.chainResp with
            | some _ => Except.ok true
            | none => Except.error "SSH chain connection failed"
          else Except.error ("Device unreachable: " ++ env.directErr)
        | none => Except.error ("Device unreachable: " ++ env.directErr)
    let cdpText ← env.cdpOut
    let links0 := parse_cdp_cisco cdpText
    let links ←
      if links0.isEmpty then do
        let lldpText ← env.lldpOut
        pure ((parse_lldp_cisco lldpText).map (fun l => { l with device_type := none }))
      else pure links0
    let brief ← env.briefOut
    .ok (discoveryTail dev job db1 links brief now)

/-- `do_discovery_job` from callback.py: the ObjectId parse happens
before the `try`, the device load and the `scanning` transition too; the
handler turns any body exception into `status="error"` on the device. -/
def do_discovery_job (job : JobMsg) (db : Db) (env : DiscEnv) (now : Nat) :
    Except String (Db × List JobMsg × List JobMsg) :=
  if !isValidObjectId job.device_id then .error "bson.errors.InvalidId"
  else
    match db.devices.find? (fun d => d.oid == job.device_id) with
    | none => .ok (db, [], [])
    | some dev =>
      let scanDevs := updateFirstDevice job.device_id (fun d => { d with status := "scanning", last_seen := some now }) db.devices
      let db1 := { db with devices := scanDevs }
      match discoveryBody dev job db1 env now with
      | .ok r => .ok r
      | .error e =>
        let errDevs := updateFirstDevice job.device_id (fun d => { d with status := "error", error := some e, last_seen := some now }) db1.devices
        .ok ({ db1 with devices := errDevs }, [], [])

/-- The consumer callback of worker.py's `consume`: decode the job,
dispatch `type="discovery"` to the orchestrator, then `basic_ack`.
Returns whether the acknowledgement was reached. -/
def consumeCallbackAcked (job : JobMsg) (db : Db) (env : DiscEnv) (now : Nat) : Bool :=
  if job.typ == "discovery" then
    match do_discovery_job job db env now with
    | .ok _ => true
    | .error _ => false
  else true

/-- The store and the published jobs after one orchestrator run; an
escaping exception leaves the baseline store and publishes nothing. -/
def discResult (job : JobMsg) (db : Db) (env : DiscEnv) (now : Nat) :
    Db × List JobMsg × List JobMsg :=
  match do_discovery_job job db env now with
  | .ok r => r
  | .error _ => (db, [], [])

/-! ## Specification-side notions used by the theorems -/

/-- The neighbor list the BFS iterates for a node (`[]` when the node is
not a key of the adjacency dict). -/
def adjList (g : List (String × List String)) (v : String) : List String :=
  (adjLookup g v).getD []

/-- A walk through the adjacency structure: non-empty, and every
consecutive pair is an adjacency step. -/
def ValidWalk (g : List (String × List String)) (p : List String) : Prop :=
  p ≠ [] ∧ p.Chain' (fun x y => y ∈ adjList g x)

/-- A walk from `s` to `t`. -/
def WalkFromTo (g : List (String × List String)) (s t : String) (p : List String) : Prop :=
  ValidWalk g p ∧ p.head? = some s ∧ p.getLast? = some t

/-- `t` is reachable from `s` in the adjacency structure. -/
def Reaches (g : List (String × List String)) (s t : String) : Prop :=
  ∃ p, WalkFromTo g s t p

/-- Wellformedness of the `graph_links` collection: keys are unique, each
document's key is `a|b`, and its endpoints are sorted. -/
def EdgeStoreWF (links : List (String × EdgeDoc)) : Prop :=
  (links.map Prod.fst).Nodup ∧
  ∀ kd ∈ links, kd.1 = kd.2.a ++ "|" ++ kd.2.b ∧ kd.2.a ≤ kd.2.b

/-- `find_one({"_id": key})` on `graph_links`. -/
def edgeLookup (links : List (String × EdgeDoc)) (key : String) : Option EdgeDoc :=
  (links.find? (fun kd => kd.1 == key)).map (fun kd => kd.2)

def ShortestWalkLen (g : List (String × List String)) (s t : String) (D : Nat) : Prop :=
  (∃ p, WalkFromTo g s t p ∧ p.length = D) ∧ ∀ p, WalkFromTo g s t p → D ≤ p.length

def BfsInv (g : List (String × List String)) (target s : String)
    (q : List (String × List String)) (V : Finset String) (a : Nat) : Prop :=
  (∀ e ∈ q, WalkFromTo g s e.1 e.2 ∧ e.1 ∈ V ∧ e.1 ≠ target) ∧
  (∀ e ∈ q, ∀ w, WalkFromTo g s e.1 w → e.2.length ≤ w.length) ∧
  (∃ k m, q.map (fun e => e.2.length) = List.replicate k a ++ List.replicate m (a + 1)) ∧
  (∀ u ∈ V, (∀ e ∈ q, e.1 ≠ u) → ∀ v ∈ adjList g u, v ∈ V) ∧
  (∀ x p, WalkFromTo g s x p → p.length ≤ a → x ∈ V) ∧
  target ∉ V ∧ s ∈ V

def BestAcc (g : List (String × List String)) (target : String) (S : List String)
    (best : Option (List String)) : Prop :=
  match best with
  | none => ∀ s ∈ S, ¬ Reaches g s target
  | some p => ∃ s ∈ S, WalkFromTo g s target p ∧
      (∀ t ∈ S, ∀ w, WalkFromTo g t target w → p.length ≤ w.length) ∧
      (∀ t ∈ S, t < s → ∀ w, WalkFromTo g t target w → p.length < w.length)

/-! # Theorems -/

/-- Claim C3 counterexample: the claim asserts that the input
`Router Source-Route-Bridge` classifies to `layer3_switch`; the code
classifies it to `router`, because the token `source-route-bridge` is a
compound term and the classifier maps only the standalone token `bridge`
to `switch` (the claim is internally inconsistent with its own
standalone-`bridge` rule). -/
theorem claim_C3_counterexample :
    classify_from_cdp_caps "Router Source-Route-Bridge" = "router" ∧
    classify_from_cdp_caps "Router Source-Route-Bridge" ≠ "layer3_switch" := by
  constructor
  · decide
  · decide

/-- Claim C3 amended: the classifier's boundary behavior with the second
case corrected — `source-route-bridge` alone stays `unknown` (not
`switch`), `Router Source-Route-Bridge` classifies to `router`,
`Switch IGMP` classifies to `switch`, and the letter form `R,B`
classifies to `layer3_switch`. -/
theorem claim_C3_amended :
    classify_from_cdp_caps "source-route-bridge" ≠ "switch" ∧
    classify_from_cdp_caps "source-route-bridge" = "unknown" ∧
    classify_from_cdp_caps "Router Source-Route-Bridge" = "router" ∧
    classify_from_cdp_caps "Switch IGMP" = "switch" ∧
    classify_from_cdp_caps "R,B" = "layer3_switch" := by
  refine ⟨by decide, by decide, by decide, by decide, by decide⟩

/-- Claim C10: with an empty parsed-link list, `upsert_graph` leaves both
graph collections exactly as they were (the seed-node upsert lives inside
the per-link loop), while `build_graph` on the same inputs still returns
the node list `[seed_ip]` containing the seed. -/
theorem claim_C10 (seed_ip : String) (devices : List Device) (now : Nat) (st : GraphState) :
    upsert_graph seed_ip [] devices now st = st ∧
    (build_graph seed_ip [] devices).1 = [seed_ip] := by
  exact ⟨rfl, by simp [build_graph, List.mergeSort]⟩

/-- Claim C2: the canonical remote node id used by the graph upserts
follows this exact cascade — (1) first device listing the IP in
`alternate_ips` wins with its primary `host`; (2) else first device with
`host` equal to the IP; (3) else first device with matching
`display_name` and a non-empty `host`; (4) else the IP verbatim; with an
empty IP but a sysname the id is `name:<sysname>`; with neither the link
is skipped by `upsert_graph`'s loop. -/
theorem claim_C2 (devices : List Device) (r_ip r_name : String) :
    (r_ip ≠ "" → ∀ d, devices.find? (fun d => d.alternate_ips.contains r_ip) = some d →
      canonicalRemoteId devices r_ip r_name = some d.host) ∧
    (r_ip ≠ "" → devices.find? (fun d => d.alternate_ips.contains r_ip) = none →
      ∀ d, devices.find? (fun d => d.host == r_ip) = some d →
      canonicalRemoteId devices r_ip r_name = some d.host) ∧
    (r_ip ≠ "" → devices.find? (fun d => d.alternate_ips.contains r_ip) = none →
      devices.find? (fun d => d.host == r_ip) = none →
      ∀ d, devices.find? (fun d => d.display_name == r_name && d.host != "") = some d →
      canonicalRemoteId devices r_ip r_name = some d.host) ∧
    (r_ip ≠ "" → devices.find? (fun d => d.alternate_ips.contains r_ip) = none →
      devices.find? (fun d => d.host == r_ip) = none →
      devices.find? (fun d => d.display_name == r_name && d.host != "") = none →
      canonicalRemoteId devices r_ip r_name = some r_ip) ∧
    (r_ip = "" → r_name ≠ "" →
      canonicalRemoteId devices r_ip r_name = some ("name:" ++ r_name)) ∧
    (r_ip = "" → r_name = "" → canonicalRemoteId devices r_ip r_name = none) ∧
    (∀ (link : Link) (seed_ip : String) (now : Nat) (st : GraphState),
      canonicalRemoteId devices link.remote_mgmt_ip link.remote_sysname = none →
      upsertGraphStep devices seed_ip now st link = st) := by
  refine ⟨?_, ?_, ?_, ?_, ?_, ?_, ?_⟩
  · intro hip d hd
    simp only [canonicalRemoteId, if_pos hip, hd]
  · intro hip h1 d hd
    simp only [canonicalRemoteId, if_pos hip, h1, hd]
  · intro hip h1 h2 d hd
    simp only [canonicalRemoteId, if_pos hip, h1, h2, hd]
  · intro hip h1 h2 h3
    simp only [canonicalRemoteId, if_pos hip, h1, h2, h3]
  · intro hip hname
    subst hip
    simp [canonicalRemoteId, hname]
  · intro hip hname
    subst hip; subst hname
    simp [canonicalRemoteId]
  · intro link seed_ip now st hnone
    simp only [upsertGraphStep, hnone]

/-- Claim C2 witness: the cascade evaluated on a concrete inventory — an
alternate-IP hit resolves to the listing device's primary host, and an
IP-less link with a sysname resolves to the `name:` id. -/
theorem claim_C2_witness :
    canonicalRemoteId
      [({ oid := "a", host := "10.1.0.5", display_name := "dist-1",
          alternate_ips := ["10.1.0.6"] } : Device)]
      "10.1.0.6" "dist-1" = some "10.1.0.5" ∧
    canonicalRemoteId
      [({ oid := "a", host := "10.1.0.5", display_name := "dist-1",
          alternate_ips := ["10.1.0.6"] } : Device)]
      "" "sw-9" = some "name:sw-9" := by
  constructor
  · exact (claim_C2 [({ oid := "a", host := "10.1.0.5", display_name := "dist-1", alternate_ips := ["10.1.0.6"] } : Device)] "10.1.0.6" "dist-1").1 (by decide) ({ oid := "a", host := "10.1.0.5", display_name := "dist-1", alternate_ips := ["10.1.0.6"] } : Device) (by decide)
  · exact (claim_C2 [({ oid := "a", host := "10.1.0.5", display_name := "dist-1", alternate_ips := ["10.1.0.6"] } : Device)] "" "sw-9").2.2.2.2.1 rfl (by decide)

theorem updateFirstDevice_length (oid : String) (f : Device → Device) :
    ∀ devs : List Device, (updateFirstDevice oid f devs).length = devs.length := by
  intro devs
  induction devs with
  | nil => rfl
  | cons d rest ih =>
    by_cases h : d.oid = oid
    · simp [updateFirstDevice, h]
    · simp [updateFirstDevice, h, ih]

/-- One reconciliation step either leaves the device count and the
`new_devices_added` flag alone, or inserts exactly one device and sets
the flag. -/
theorem reconcileLink_step (seed_ip : String) (depth : Int) (auto_recursive : Bool)
    (max_depth : Int) (defaults : Option Identity) (now : Nat)
    (acc : Db × Bool × List JobMsg) (link : Link) :
    ((reconcileLink seed_ip depth auto_recursive max_depth defaults now acc link).2.1 = acc.2.1 ∧
     (reconcileLink seed_ip depth auto_recursive max_depth defaults now acc link).1.devices.length =
       acc.1.devices.length) ∨
    ((reconcileLink seed_ip depth auto_recursive max_depth defaults now acc link).2.1 = true ∧
     (reconcileLink seed_ip depth auto_recursive max_depth defaults now acc link).1.devices.length =
       acc.1.devices.length + 1) := by
  simp only [reconcileLink]
  split
  · -- no mgmt IP
    split
    · left; exact ⟨rfl, rfl⟩
    · right; constructor
      · rfl
      · simp
  · -- with mgmt IP: three-way match on the two lookups
    split
    · left
      refine ⟨rfl, ?_⟩
      split_ifs <;> simp [updateFirstDevice_length]
    · left
      refine ⟨rfl, ?_⟩
      simp [updateFirstDevice_length]
    · right; constructor
      · rfl
      · simp

/-- Folding the reconciliation over any link list starting with a clear
flag: the flag ends `true` exactly when the device count grew. -/
theorem reconcileFold (seed_ip : String) (depth : Int) (auto_recursive : Bool)
    (max_depth : Int) (defaults : Option Identity) (now : Nat) :
    ∀ (links : List Link) (acc : Db × Bool × List JobMsg),
      ((links.foldl (reconcileLink seed_ip depth auto_recursive max_depth defaults now) acc).2.1 = acc.2.1 ∧
       (links.foldl (reconcileLink seed_ip depth auto_recursive max_depth defaults now) acc).1.devices.length =
         acc.1.devices.length) ∨
      ((links.foldl (reconcileLink seed_ip depth auto_recursive max_depth defaults now) acc).2.1 = true ∧
       acc.1.devices.length <
         (links.foldl (reconcileLink seed_ip depth auto_recursive max_depth defaults now) acc).1.devices.length) := by
  intro links
  induction links with
  | nil => intro acc; left; exact ⟨rfl, rfl⟩
  | cons l rest ih =>
    intro acc
    have hstep := reconcileLink_step seed_ip depth auto_recursive max_depth defaults now acc l
    have hrest := ih (reconcileLink seed_ip depth auto_recursive max_depth defaults now acc l)
    simp only [List.foldl_cons]
    rcases hstep with ⟨hf1, hl1⟩ | ⟨hf1, hl1⟩ <;> rcases hrest with ⟨hf2, hl2⟩ | ⟨hf2, hl2⟩
    · left; exact ⟨by rw [hf2, hf1], by rw [hl2, hl1]⟩
    · right; exact ⟨hf2, by omega⟩
    · right; exact ⟨by rw [hf2, hf1], by omega⟩
    · right; exact ⟨hf2, by omega⟩

/-- The reconciliation fold followed by the conditional trigger: the
batch is the full policy list when the device count grew, empty when it
did not. -/
theorem foldTrigger_spec (seed_ip : String) (depth : Int) (ar : Bool) (md : Int)
    (defaults : Option Identity) (now : Nat) (links : List Link) (db4 : Db) (L : Nat)
    (hL : db4.devices.length = L) :
    (L < (links.foldl (reconcileLink seed_ip depth ar md defaults now) (db4, false, [])).1.devices.length →
      (if (links.foldl (reconcileLink seed_ip depth ar md defaults now) (db4, false, [])).2.1 then
        trigger_discover_all (links.foldl (reconcileLink seed_ip depth ar md defaults now) (db4, false, [])).1.devices
       else []) =
        trigger_discover_all (links.foldl (reconcileLink seed_ip depth ar md defaults now) (db4, false, [])).1.devices) ∧
    ((links.foldl (reconcileLink seed_ip depth ar md defaults now) (db4, false, [])).1.devices.length ≤ L →
      (if (links.foldl (reconcileLink seed_ip depth ar md defaults now) (db4, false, [])).2.1 then
        trigger_discover_all (links.foldl (reconcileLink seed_ip depth ar md defaults now) (db4, false, [])).1.devices
       else []) = []) := by
  have hfold := reconcileFold seed_ip depth ar md defaults now links (db4, false, [])
  constructor
  · intro hlt
    rcases hfold with ⟨_, hlen⟩ | ⟨hflag, _⟩
    · exfalso
      simp only at hlen
      omega
    · simp [hflag]
  · intro hle
    rcases hfold with ⟨hflag, _⟩ | ⟨_, hlen⟩
    · simp only at hflag
      simp [hflag]
    · exfalso
      simp only at hlen
      omega

/-- The post-connection tail publishes the cascade batch iff the
neighbor loop inserted at least one device. -/
theorem discoveryTail_triggers (dev : Device) (job : JobMsg) (db1 : Db) (links : List Link)
    (brief : String) (now : Nat) :
    (db1.devices.length < (discoveryTail dev job db1 links brief now).1.devices.length →
      (discoveryTail dev job db1 links brief now).2.2 =
        trigger_discover_all (discoveryTail dev job db1 links brief now).1.devices) ∧
    ((discoveryTail dev job db1 links brief now).1.devices.length ≤ db1.devices.length →
      (discoveryTail dev job db1 links brief now).2.2 = []) := by
  simp only [discoveryTail]
  exact foldTrigger_spec dev.host job.depth job.auto_recursive job.max_depth _ now links _
    db1.devices.length (by simp [updateFirstDevice_length])

/-- The `try` body publishes the cascade batch iff it inserted devices. -/
theorem discoveryBody_triggers (dev : Device) (job : JobMsg) (db1 : Db) (env : DiscEnv)
    (now : Nat) (r : Db × List JobMsg × List JobMsg)
    (h : discoveryBody dev job db1 env now = .ok r) :
    (db1.devices.length < r.1.devices.length → r.2.2 = trigger_discover_all r.1.devices) ∧
    (r.1.devices.length ≤ db1.devices.length → r.2.2 = []) := by
  unfold discoveryBody at h
  simp only [bind, Except.bind] at h
  repeat' split at h
  all_goals try (exact Except.noConfusion h)
  all_goals rcases Except.ok.inj h with rfl
  all_goals
    first
    | exact discoveryTail_triggers dev job db1 _ _ now
    | (constructor
       · intro hlt
         exfalso
         simp [updateFirstDevice_length] at hlt
       · intro _; rfl)

/-- Claim C7: whenever a discovery job adds at least one new device
record, the run enqueues exactly one follow-up discovery job for each
device whose status is `ready` or `error`, in inventory order, each
carrying `depth` equal to the device's stored depth (0 when absent),
`auto_recursive=false` and `max_depth=3`; a run that adds no device
enqueues no follow-up batch. -/
theorem claim_C7 (job : JobMsg) (db : Db) (env : DiscEnv) (now : Nat) :
    (db.devices.length < (discResult job db env now).1.devices.length →
      (discResult job db env now).2.2 =
        ((discResult job db env now).1.devices.filter
            (fun d => d.status == "ready" || d.status == "error")).map
          (fun d => { typ := "discovery", device_id := d.oid, depth := d.depth.getD 0,
                      auto_recursive := false, max_depth := 3 })) ∧
    ((discResult job db env now).1.devices.length ≤ db.devices.length →
      (discResult job db env now).2.2 = []) := by
  unfold discResult
  rcases hdo : do_discovery_job job db env now with e | r
  · simp only [hdo]
    constructor
    · intro hlt; simp at hlt
    · intro _; trivial
  · simp only [hdo]
    unfold do_discovery_job at hdo
    split at hdo
    · exact Except.noConfusion hdo
    · split at hdo
      · -- device missing: nothing happens
        rcases Except.ok.inj hdo with rfl
        constructor
        · intro hlt; simp at hlt
        · intro _; rfl
      · -- device found; the handler decides the final shape
        rename_i dev _
        dsimp only at hdo
        split at hdo
        · -- body returned normally
          rename_i rb hb
          rcases Except.ok.inj hdo with rfl
          have hchar := discoveryBody_triggers dev job _ env now rb hb
          have hlen1 : (updateFirstDevice job.device_id
              (fun d => { d with status := "scanning", last_seen := some now }) db.devices).length =
              db.devices.length := updateFirstDevice_length _ _ _
          constructor
          · intro hlt
            exact hchar.1 (by simp only [hlen1]; exact hlt)
          · intro hle
            exact hchar.2 (by simp only [hlen1]; exact hle)
        · -- body raised; the handler stores the error and publishes nothing
          rcases Except.ok.inj hdo with rfl
          constructor
          · intro hlt
            simp [updateFirstDevice_length] at hlt
          · intro _; rfl

/-- Claim C7 witness: a concrete job that learns one new (IP-less)
neighbor; the run grows the inventory and publishes exactly the policy
batch over the final device table. -/
theorem claim_C7_witness :
    ({ devices := [({ oid := oidOfNat 0, host := "10.0.0.1", display_name := "seed", username := "u", password := "p", status := "unknown" } : Device)], identities := [], graph_nodes := [], graph_links := [], topology := [], nextOid := 1 } : Db).devices.length <
      (discResult ({ device_id := oidOfNat 0, depth := 0, auto_recursive := false, max_depth := 3 } : JobMsg) ({ devices := [({ oid := oidOfNat 0, host := "10.0.0.1", display_name := "seed", username := "u", password := "p", status := "unknown" } : Device)], identities := [], graph_nodes := [], graph_links := [], topology := [], nextOid := 1 } : Db) ({ directOk := true, startIps := ∅, cdpOut := .ok "Device ID: n1\nInterface: Gi0/1,  Port ID (outgoing port): x1\n" } : DiscEnv) 100).1.devices.length ∧
    (discResult ({ device_id := oidOfNat 0, depth := 0, auto_recursive := false, max_depth := 3 } : JobMsg) ({ devices := [({ oid := oidOfNat 0, host := "10.0.0.1", display_name := "seed", username := "u", password := "p", status := "unknown" } : Device)], identities := [], graph_nodes := [], graph_links := [], topology := [], nextOid := 1 } : Db) ({ directOk := true, startIps := ∅, cdpOut := .ok "Device ID: n1\nInterface: Gi0/1,  Port ID (outgoing port): x1\n" } : DiscEnv) 100).2.2 =
      ((discResult ({ device_id := oidOfNat 0, depth := 0, auto_recursive := false, max_depth := 3 } : JobMsg) ({ devices := [({ oid := oidOfNat 0, host := "10.0.0.1", display_name := "seed", username := "u", password := "p", status := "unknown" } : Device)], identities := [], graph_nodes := [], graph_links := [], topology := [], nextOid := 1 } : Db) ({ directOk := true, startIps := ∅, cdpOut := .ok "Device ID: n1\nInterface: Gi0/1,  Port ID (outgoing port): x1\n" } : DiscEnv) 100).1.devices.filter
          (fun d => d.status == "ready" || d.status == "error")).map
        (fun d => { typ := "discovery", device_id := d.oid, depth := d.depth.getD 0,
                    auto_recursive := false, max_depth := 3 }) := by
  refine ⟨by decide, ?_⟩
  exact (claim_C7 ({ device_id := oidOfNat 0, depth := 0, auto_recursive := false, max_depth := 3 } : JobMsg) ({ devices := [({ oid := oidOfNat 0, host := "10.0.0.1", display_name := "seed", username := "u", password := "p", status := "unknown" } : Device)], identities := [], graph_nodes := [], graph_links := [], topology := [], nextOid := 1 } : Db) ({ directOk := true, startIps := ∅, cdpOut := .ok "Device ID: n1\nInterface: Gi0/1,  Port ID (outgoing port): x1\n" } : DiscEnv) 100).1 (by decide)

theorem updateFirstDevice_findSelf (oid : String) (f : Device → Device)
    (hoid : ∀ d, (f d).oid = d.oid) :
    ∀ devs : List Device,
      (updateFirstDevice oid f devs).find? (fun d => d.oid == oid) =
        (devs.find? (fun d => d.oid == oid)).map f := by
  intro devs
  induction devs with
  | nil => rfl
  | cons d rest ih =>
    by_cases h : d.oid = oid
    · simp [updateFirstDevice, h, List.find?_cons, hoid]
    · simp only [updateFirstDevice, if_neg h]
      rw [List.find?_cons_of_neg, List.find?_cons_of_neg, ih]
      · simp [h]
      · simp [h, hoid]

/-- Claim C5 counterexample: a discovery message whose `device_id` is not
a valid `ObjectId` makes `ObjectId(job["device_id"])` raise before the
orchestrator's `try` block, the exception escapes `do_discovery_job`,
and the consumer callback never reaches the acknowledgement. -/
theorem claim_C5_counterexample :
    consumeCallbackAcked
      ({ device_id := "not-an-objectid", depth := 0, auto_recursive := false, max_depth := 3 } : JobMsg)
      ({ devices := [], identities := [], graph_nodes := [], graph_links := [],
         topology := [], nextOid := 0 } : Db)
      ({ directOk := true, startIps := ∅, cdpOut := .ok "" } : DiscEnv) 0 = false := by
  decide

/-- Claim C5 amended: for every job whose `device_id` parses as an
`ObjectId`, every error raised while processing the device is caught
inside the orchestrator, recorded on the device record (status `error`
with the message), and swallowed, so the consumer callback always
reaches the acknowledgement; errors in the pre-`try` prologue (an
invalid `device_id`) are the exception and escape. -/
theorem claim_C5 (job : JobMsg) (db : Db) (env : DiscEnv) (now : Nat)
    (h : isValidObjectId job.device_id = true) :
    consumeCallbackAcked job db env now = true ∧
    (∀ dev, db.devices.find? (fun d => d.oid == job.device_id) = some dev →
      ∀ e, discoveryBody dev job
          ({ db with devices := updateFirstDevice job.device_id (fun d => { d with status := "scanning", last_seen := some now }) db.devices }) env now =
          .error e →
      ∃ db', do_discovery_job job db env now = .ok (db', [], []) ∧
        ∃ d', db'.devices.find? (fun d => d.oid == job.device_id) = some d' ∧
          d'.status = "error" ∧ d'.error = some e) := by
  have hok : ∀ r, do_discovery_job job db env now = r → ∃ v, r = .ok v := by
    intro r hr
    unfold do_discovery_job at hr
    rw [h] at hr
    simp only [Bool.not_true] at hr
    rw [if_neg (by simp)] at hr
    rcases hf : db.devices.find? (fun d => d.oid == job.device_id) with _ | dev
    · rw [hf] at hr; exact ⟨_, hr.symm⟩
    · rw [hf] at hr
      dsimp only at hr
      rcases hb : discoveryBody dev job _ env now with e | rb
      · rw [hb] at hr; exact ⟨_, hr.symm⟩
      · rw [hb] at hr; exact ⟨_, hr.symm⟩
  constructor
  · unfold consumeCallbackAcked
    by_cases ht : (job.typ == "discovery") = true
    · rw [if_pos ht]
      rcases hok _ rfl with ⟨v, hv⟩
      rw [hv]
    · rw [if_neg ht]
  · intro dev hdev e hbody
    unfold do_discovery_job
    rw [h]
    simp only [Bool.not_true]
    rw [if_neg (by simp), hdev]
    dsimp only
    rw [hbody]
    refine ⟨_, rfl, ?_⟩
    dsimp only
    rw [updateFirstDevice_findSelf job.device_id
          (fun d => { d with status := "error", error := some e, last_seen := some now })
          (fun d => rfl),
        updateFirstDevice_findSelf job.device_id
          (fun d => { d with status := "scanning", last_seen := some now })
          (fun d => rfl),
        hdev]
    exact ⟨_, rfl, rfl, rfl⟩

/-- Claim C5 witness: a valid-ObjectId job for an unreachable device — the
error is recorded on the record and the callback still acknowledges. -/
theorem claim_C5_witness :
    isValidObjectId (oidOfNat 7) = true ∧
    consumeCallbackAcked
      ({ device_id := oidOfNat 7, depth := 0, auto_recursive := false, max_depth := 3 } : JobMsg)
      ({ devices := [({ oid := oidOfNat 7, host := "10.0.0.9", display_name := "d9", username := "u", password := "p", status := "unknown" } : Device)], identities := [], graph_nodes := [], graph_links := [], topology := [], nextOid := 8 } : Db)
      ({ directOk := false, startIps := ∅, cdpOut := .ok "" } : DiscEnv) 5 = true := by
  refine ⟨by decide, ?_⟩
  exact (claim_C5
    ({ device_id := oidOfNat 7, depth := 0, auto_recursive := false, max_depth := 3 } : JobMsg)
    ({ devices := [({ oid := oidOfNat 7, host := "10.0.0.9", display_name := "d9", username := "u", password := "p", status := "unknown" } : Device)], identities := [], graph_nodes := [], graph_links := [], topology := [], nextOid := 8 } : Db)
    ({ directOk := false, startIps := ∅, cdpOut := .ok "" } : DiscEnv) 5 (by decide)).1

theorem upsertEdge_lookup_self (k a b x y : String) (now : Nat) :
    ∀ links, edgeLookup (upsertEdge k a b x y now links) k =
      some (match edgeLookup links k with
            | some d => ⟨a, b, x, y, d.first_seen, now⟩
            | none => ⟨a, b, x, y, now, now⟩) := by
  intro links
  induction links with
  | nil => simp [upsertEdge, edgeLookup]
  | cons kd rest ih =>
    by_cases h : kd.1 = k
    · simp [upsertEdge, h, edgeLookup, List.find?_cons]
    · simp only [upsertEdge]
      rw [if_neg h]
      simp only [edgeLookup, List.find?_cons] at ih ⊢
      have hb : (kd.1 == k) = false := by simp [h]
      simp only [hb]
      exact ih

theorem upsertEdge_lookup_other (k a b x y k' : String) (now : Nat) (hne : k' ≠ k) :
    ∀ links, edgeLookup (upsertEdge k a b x y now links) k' = edgeLookup links k' := by
  intro links
  induction links with
  | nil => simp [upsertEdge, edgeLookup, Ne.symm hne]
  | cons kd rest ih =>
    by_cases h : kd.1 = k
    · have hb : (kd.1 == k') = false := by simp [h, Ne.symm hne]
      have hkk : (k == k') = false := by simp [Ne.symm hne]
      simp [upsertEdge, h, edgeLookup, List.find?_cons, hb, hkk]
    · simp only [upsertEdge]
      rw [if_neg h]
      simp only [edgeLookup, List.find?_cons] at ih ⊢
      by_cases h2 : kd.1 = k'
      · simp [h2]
      · have hb : (kd.1 == k') = false := by simp [h2]
        simp only [hb]
        exact ih

theorem upsertEdge_mem (k a b x y : String) (now : Nat) :
    ∀ links, ∀ e ∈ upsertEdge k a b x y now links,
      e ∈ links ∨ (e.1 = k ∧ e.2.a = a ∧ e.2.b = b) := by
  intro links
  induction links with
  | nil =>
    intro e he
    simp [upsertEdge] at he
    right; rw [he]; exact ⟨rfl, rfl, rfl⟩
  | cons kd rest ih =>
    intro e he
    by_cases h : kd.1 = k
    · simp only [upsertEdge, if_pos h] at he
      rcases List.mem_cons.mp he with h1 | h2
      · right; rw [h1]; exact ⟨h, rfl, rfl⟩
      · left; exact List.mem_cons_of_mem _ h2
    · simp only [upsertEdge, if_neg h] at he
      rcases List.mem_cons.mp he with h1 | h2
      · left; rw [h1]; exact List.mem_cons_self _ _
      · rcases ih e h2 with h3 | h4
        · left; exact List.mem_cons_of_mem _ h3
        · right; exact h4

theorem upsertEdge_keys (k a b x y : String) (now : Nat) :
    ∀ links : List (String × EdgeDoc),
      (k ∈ links.map Prod.fst → (upsertEdge k a b x y now links).map Prod.fst = links.map Prod.fst) ∧
      (k ∉ links.map Prod.fst →
        (upsertEdge k a b x y now links).map Prod.fst = links.map Prod.fst ++ [k]) := by
  intro links
  induction links with
  | nil => simp [upsertEdge]
  | cons kd rest ih =>
    by_cases h : kd.1 = k
    · constructor
      · intro _; simp [upsertEdge, h]
      · intro hmem
        exfalso
        exact hmem (by simp [h])
    · constructor
      · intro hmem
        rw [List.map_cons] at hmem
        rcases List.mem_cons.mp hmem with h1 | h2
        · exact absurd h1.symm h
        · simp [upsertEdge, if_neg h, ih.1 h2]
      · intro hmem
        have h2 : k ∉ rest.map Prod.fst := fun hc => hmem (by rw [List.map_cons]; exact List.mem_cons_of_mem _ hc)
        simp [upsertEdge, if_neg h, ih.2 h2]

theorem nodupKeyUnique {β : Type} :
    ∀ l : List (String × β), (l.map Prod.fst).Nodup →
      ∀ e1 ∈ l, ∀ e2 ∈ l, e1.1 = e2.1 → e1 = e2 := by
  intro l
  induction l with
  | nil => intro _ e1 h1; simp at h1
  | cons kd rest ih =>
    intro hnd e1 h1 e2 h2 hk
    have hnd' : (kd.1 :: rest.map Prod.fst).Nodup := by rwa [List.map_cons] at hnd
    have hnd2 := List.nodup_cons.mp hnd'
    rcases List.mem_cons.mp h1 with ha | ha <;> rcases List.mem_cons.mp h2 with hb | hb
    · rw [ha, hb]
    · exfalso
      apply hnd2.1
      have hmem : e2.1 ∈ rest.map Prod.fst := List.mem_map_of_mem Prod.fst hb
      rw [ha] at hk
      rw [← hk] at hmem
      exact hmem
    · exfalso
      apply hnd2.1
      have hmem : e1.1 ∈ rest.map Prod.fst := List.mem_map_of_mem Prod.fst ha
      rw [hb] at hk
      rw [hk] at hmem
      exact hmem
    · exact ih hnd2.2 e1 ha e2 hb hk

theorem upsertEdge_wf (k a b x y : String) (now : Nat) (links : List (String × EdgeDoc))
    (h : EdgeStoreWF links) (hk : k = a ++ "|" ++ b) (hab : a ≤ b) :
    EdgeStoreWF (upsertEdge k a b x y now links) := by
  constructor
  · by_cases hmem : k ∈ links.map Prod.fst
    · rw [(upsertEdge_keys k a b x y now links).1 hmem]
      exact h.1
    · rw [(upsertEdge_keys k a b x y now links).2 hmem]
      have hsing : ([k] : List String).Nodup := List.nodup_singleton k
      refine List.Nodup.append h.1 hsing ?_
      intro z hz1 hz2
      rcases List.mem_singleton.mp hz2 with rfl
      exact hmem hz1
  · intro kd hkd
    rcases upsertEdge_mem k a b x y now links kd hkd with hold | hnew
    · exact h.2 kd hold
    · rw [hnew.1, hnew.2.1, hnew.2.2]
      exact ⟨hk, hab⟩

theorem upsertGraphStep_links (devices : List Device) (seed_ip : String) (now : Nat)
    (st : GraphState) (link : Link) :
    (upsertGraphStep devices seed_ip now st link).links = st.links ∨
    ∃ rid, canonicalRemoteId devices link.remote_mgmt_ip link.remote_sysname = some rid ∧
      (upsertGraphStep devices seed_ip now st link).links =
        upsertEdge ((if rid < seed_ip then rid else seed_ip) ++ "|" ++ (if rid < seed_ip then seed_ip else rid))
          (if rid < seed_ip then rid else seed_ip) (if rid < seed_ip then seed_ip else rid)
          (if (if rid < seed_ip then rid else seed_ip) = seed_ip then link.local_if else link.remote_port)
          (if (if rid < seed_ip then seed_ip else rid) = rid then link.remote_port else link.local_if)
          now st.links := by
  rcases hc : canonicalRemoteId devices link.remote_mgmt_ip link.remote_sysname with _ | rid
  · left
    simp only [upsertGraphStep, hc]
  · right
    refine ⟨rid, rfl, ?_⟩
    simp only [upsertGraphStep, hc]
    by_cases hlt : rid < seed_ip
    · simp only [if_pos hlt]
    · simp only [if_neg hlt]

theorem upsertGraphStep_wf (devices : List Device) (seed_ip : String) (now : Nat)
    (st : GraphState) (link : Link) (h : EdgeStoreWF st.links) :
    EdgeStoreWF (upsertGraphStep devices seed_ip now st link).links := by
  rcases upsertGraphStep_links devices seed_ip now st link with heq | ⟨rid, _, heq⟩
  · rwa [heq]
  · rw [heq]
    refine upsertEdge_wf _ _ _ _ _ now st.links h rfl ?_
    by_cases hlt : rid < seed_ip
    · simp only [if_pos hlt]
      exact le_of_lt hlt
    · simp only [if_neg hlt]
      exact le_of_not_lt hlt

theorem upsert_graph_wf (devices : List Device) (seed_ip : String) (now : Nat) :
    ∀ (links : List Link) (st : GraphState), EdgeStoreWF st.links →
      EdgeStoreWF (upsert_graph seed_ip links devices now st).links := by
  intro links
  induction links with
  | nil => intro st h; exact h
  | cons l rest ih =>
    intro st h
    exact ih _ (upsertGraphStep_wf devices seed_ip now st l h)

theorem edgeStoreWF_pair_unique (links : List (String × EdgeDoc)) (h : EdgeStoreWF links) :
    ∀ e1 ∈ links, ∀ e2 ∈ links,
      ((e1.2.a = e2.2.a ∧ e1.2.b = e2.2.b) ∨ (e1.2.a = e2.2.b ∧ e1.2.b = e2.2.a)) → e1 = e2 := by
  intro e1 h1 e2 h2 hpair
  have hw1 := h.2 e1 h1
  have hw2 := h.2 e2 h2
  have hkeys : e1.1 = e2.1 := by
    rcases hpair with ⟨ha, hb⟩ | ⟨ha, hb⟩
    · rw [hw1.1, hw2.1, ha, hb]
    · have h1ab : e1.2.a = e1.2.b := le_antisymm (hw1.2) (by rw [ha, hb]; exact hw2.2)
      have h2ab : e2.2.a = e2.2.b := by rw [← hb, ← ha, h1ab]
      rw [hw1.1, hw2.1, ha, hb, h2ab]
  exact nodupKeyUnique links h.1 e1 h1 e2 h2 hkeys

theorem upsertEdge_first_seen (k a b x y k' : String) (now : Nat)
    (links : List (String × EdgeDoc)) (d : EdgeDoc) (h : edgeLookup links k' = some d) :
    ∃ d', edgeLookup (upsertEdge k a b x y now links) k' = some d' ∧
      d'.first_seen = d.first_seen := by
  by_cases hk : k' = k
  · rw [hk] at h ⊢
    rw [upsertEdge_lookup_self k a b x y now links, h]
    exact ⟨_, rfl, rfl⟩
  · rw [upsertEdge_lookup_other k a b x y k' now hk links, h]
    exact ⟨d, rfl, rfl⟩

theorem upsert_graph_first_seen (devices : List Device) (seed_ip : String) (now : Nat) :
    ∀ (links : List Link) (st : GraphState) (k : String) (d : EdgeDoc),
      edgeLookup st.links k = some d →
      ∃ d', edgeLookup (upsert_graph seed_ip links devices now st).links k = some d' ∧
        d'.first_seen = d.first_seen := by
  intro links
  induction links with
  | nil => intro st k d h; exact ⟨d, h, rfl⟩
  | cons l rest ih =>
    intro st k d h
    rcases upsertGraphStep_links devices seed_ip now st l with heq | ⟨rid, _, heq⟩
    · have hstep : edgeLookup (upsertGraphStep devices seed_ip now st l).links k = some d := by rw [heq]; exact h
      exact ih _ k d hstep
    · rcases upsertEdge_first_seen
        ((if rid < seed_ip then rid else seed_ip) ++ "|" ++ (if rid < seed_ip then seed_ip else rid))
        (if rid < seed_ip then rid else seed_ip) (if rid < seed_ip then seed_ip else rid)
        (if (if rid < seed_ip then rid else seed_ip) = seed_ip then l.local_if else l.remote_port)
        (if (if rid < seed_ip then seed_ip else rid) = rid then l.remote_port else l.local_if)
        k now st.links d h with ⟨d1, hd1, hfs⟩
      rw [← heq] at hd1
      rcases ih _ k d1 hd1 with ⟨d2, hd2, hfs2⟩
      exact ⟨d2, hd2, by rw [hfs2, hfs]⟩

/-- Claim C1: for every seed and every link the upsert processes, the
edge is written under key `min|max` (string order) with `a`, `b` the
sorted endpoints, `local_if` staying with the seed and `remote_port`
with the remote in whichever sorted position each lands, and `last_seen`
stamped; a re-observed key keeps its `first_seen` (over a whole run,
too), a fresh key initializes it; and a wellformed store stays
wellformed, which makes at most one edge document exist per unordered
node pair. -/
theorem claim_C1 (devices : List Device) (seed_ip : String) (now : Nat) (st : GraphState)
    (link : Link) (rid : String)
    (hrid : canonicalRemoteId devices link.remote_mgmt_ip link.remote_sysname = some rid) :
    (∃ doc, edgeLookup (upsertGraphStep devices seed_ip now st link).links
        (min seed_ip rid ++ "|" ++ max seed_ip rid) = some doc ∧
      doc.a = min seed_ip rid ∧ doc.b = max seed_ip rid ∧
      (doc.a = seed_ip → doc.ifA = link.local_if) ∧
      (doc.a ≠ seed_ip → doc.a = rid ∧ doc.ifA = link.remote_port) ∧
      (doc.b = rid → doc.ifB = link.remote_port) ∧
      (doc.b ≠ rid → doc.b = seed_ip ∧ doc.ifB = link.local_if) ∧
      doc.last_seen = now ∧
      (∀ dOld, edgeLookup st.links (min seed_ip rid ++ "|" ++ max seed_ip rid) = some dOld →
        doc.first_seen = dOld.first_seen) ∧
      (edgeLookup st.links (min seed_ip rid ++ "|" ++ max seed_ip rid) = none →
        doc.first_seen = now)) ∧
    (∀ links : List Link, EdgeStoreWF st.links →
      EdgeStoreWF (upsert_graph seed_ip links devices now st).links ∧
      ∀ e1 ∈ (upsert_graph seed_ip links devices now st).links,
        ∀ e2 ∈ (upsert_graph seed_ip links devices now st).links,
          ((e1.2.a = e2.2.a ∧ e1.2.b = e2.2.b) ∨ (e1.2.a = e2.2.b ∧ e1.2.b = e2.2.a)) → e1 = e2) ∧
    (∀ (links : List Link) (k : String) (d : EdgeDoc), edgeLookup st.links k = some d →
      ∃ d', edgeLookup (upsert_graph seed_ip links devices now st).links k = some d' ∧
        d'.first_seen = d.first_seen) := by
  refine ⟨?_, ?_, ?_⟩
  · by_cases hlt : rid < seed_ip
    · have hne : rid ≠ seed_ip := ne_of_lt hlt
      have hminEq : min seed_ip rid = rid := by
        rw [min_def, if_neg (not_le.mpr hlt)]
      have hmaxEq : max seed_ip rid = seed_ip := by
        rw [max_def, if_neg (not_le.mpr hlt)]
      rw [hminEq, hmaxEq]
      simp only [upsertGraphStep, hrid, if_pos hlt, if_neg hne, if_neg (Ne.symm hne)]
      rw [upsertEdge_lookup_self]
      rcases hOld : edgeLookup st.links (rid ++ "|" ++ seed_ip) with _ | d0
      · refine ⟨_, rfl, rfl, rfl, ?_, ?_, ?_, ?_, rfl, ?_, ?_⟩
        · intro h; exact absurd h hne
        · intro _; exact ⟨rfl, rfl⟩
        · intro h; exact absurd h.symm hne
        · intro _; exact ⟨rfl, rfl⟩
        · intro dOld hdn; exact Option.noConfusion hdn
        · intro _; rfl
      · refine ⟨_, rfl, rfl, rfl, ?_, ?_, ?_, ?_, rfl, ?_, ?_⟩
        · intro h; exact absurd h hne
        · intro _; exact ⟨rfl, rfl⟩
        · intro h; exact absurd h.symm hne
        · intro _; exact ⟨rfl, rfl⟩
        · intro dOld hdn
          rw [Option.some.inj hdn]
        · intro hdn; exact Option.noConfusion hdn
    · have hle : seed_ip ≤ rid := le_of_not_lt hlt
      have hminEq : min seed_ip rid = seed_ip := by rw [min_def, if_pos hle]
      have hmaxEq : max seed_ip rid = rid := by rw [max_def, if_pos hle]
      rw [hminEq, hmaxEq]
      simp only [upsertGraphStep, hrid, if_neg hlt, if_pos rfl]
      rw [upsertEdge_lookup_self]
      rcases hOld : edgeLookup st.links (seed_ip ++ "|" ++ rid) with _ | d0
      · refine ⟨_, rfl, rfl, rfl, ?_, ?_, ?_, ?_, rfl, ?_, ?_⟩
        · intro _; rfl
        · intro h; exact absurd rfl h
        · intro _; rfl
        · intro h; exact absurd rfl h
        · intro dOld hdn; exact Option.noConfusion hdn
        · intro _; rfl
      · refine ⟨_, rfl, rfl, rfl, ?_, ?_, ?_, ?_, rfl, ?_, ?_⟩
        · intro _; rfl
        · intro h; exact absurd rfl h
        · intro _; rfl
        · intro h; exact absurd rfl h
        · intro dOld hdn
          rw [Option.some.inj hdn]
        · intro hdn; exact Option.noConfusion hdn
  · intro links hwf
    have hwf2 := upsert_graph_wf devices seed_ip now links st hwf
    exact ⟨hwf2, edgeStoreWF_pair_unique _ hwf2⟩
  · intro links k d hd
    exact upsert_graph_first_seen devices seed_ip now links st k d hd

/-- Claim C1 witness: one concrete link against an empty store — the edge
lands under the sorted key with the seed's interface in position `a`. -/
theorem claim_C1_witness :
    ∃ doc, edgeLookup
        (upsertGraphStep [] "10.0.0.1" 7 ⟨[], []⟩ ({ local_if := "Gi0/1", remote_sysname := "sw", remote_port := "Gi1/0/24", remote_mgmt_ip := "10.0.0.2" } : Link)).links
        (min "10.0.0.1" "10.0.0.2" ++ "|" ++ max "10.0.0.1" "10.0.0.2") = some doc ∧
      doc.a = min "10.0.0.1" "10.0.0.2" ∧ doc.b = max "10.0.0.1" "10.0.0.2" ∧
      (doc.a = "10.0.0.1" → doc.ifA = "Gi0/1") ∧
      (doc.a ≠ "10.0.0.1" → doc.a = "10.0.0.2" ∧ doc.ifA = "Gi1/0/24") ∧
      (doc.b = "10.0.0.2" → doc.ifB = "Gi1/0/24") ∧
      (doc.b ≠ "10.0.0.2" → doc.b = "10.0.0.1" ∧ doc.ifB = "Gi0/1") ∧
      doc.last_seen = 7 ∧
      (∀ dOld, edgeLookup ([] : List (String × EdgeDoc)) (min "10.0.0.1" "10.0.0.2" ++ "|" ++ max "10.0.0.1" "10.0.0.2") = some dOld →
        doc.first_seen = dOld.first_seen) ∧
      (edgeLookup ([] : List (String × EdgeDoc)) (min "10.0.0.1" "10.0.0.2" ++ "|" ++ max "10.0.0.1" "10.0.0.2") = none →
        doc.first_seen = 7) := by
  exact (claim_C1 [] "10.0.0.1" 7 ⟨[], []⟩
    ({ local_if := "Gi0/1", remote_sysname := "sw", remote_port := "Gi1/0/24", remote_mgmt_ip := "10.0.0.2" } : Link)
    "10.0.0.2" (by decide)).1

/-- Claim C6 counterexample: the claim reads the three reactions of one
iteration as mutually exclusive alternatives.  With a session whose
replies alternate `password:` prompts before finally showing `SW#`, the
code loop (which cascades reactions and performs up to three sends per
iteration) connects within its 10 iterations, while a loop that follows
the claimed mutually exclusive order exhausts its 10 iterations and
fails — so the loop does not follow the claimed order. -/
theorem claim_C6_counterexample :
    (hopLoop (fun k => if k < 12 then "password:" else "SW#") "pw" 10 ⟨0, [], "password:"⟩).2 = true ∧
    (hopLoopExclusive (fun k => if k < 12 then "password:" else "SW#") "pw" 10 ⟨0, [], "password:"⟩).2 = false ∧
    (hopLoop (fun k => if k < 12 then "password:" else "SW#") "pw" 10 ⟨0, [], "password:"⟩).1.sends ≠
      (hopLoopExclusive (fun k => if k < 12 then "password:" else "SW#") "pw" 10 ⟨0, [], "password:"⟩).1.sends := by
  refine ⟨by decide, by decide, by decide⟩

/-- Claim C6 amended: in each iteration the three reactions are applied
in sequence (cascaded, each on the then-current output), not as
exclusive alternatives — when the output shows `password:` the password
is the iteration's first send; when it does not but shows a key prompt,
`yes` is the first send; when neither reaction fires and the trimmed
last line ends in `#` or `>` the iteration connects without sending;
the loop runs at most 10 iterations (an exhausted loop has performed
exactly its fuel's worth of iterations), and a hop whose loop exhausts
without a prompt makes the whole chain fail (no session is returned). -/
theorem claim_C6 (resp : Nat → String) (password : String) :
    (∀ st : HopSt, pyContains (pyLower st.output) "password:" = true →
      ∃ restCmds, (hopIter resp password st).1.sends = st.sends ++ password :: restCmds) ∧
    (∀ st : HopSt, pyContains (pyLower st.output) "password:" = false →
      (pyContains (pyLower st.output) "(yes/no" || pyContains (pyLower st.output) "continue connecting") = true →
      ∃ restCmds, (hopIter resp password st).1.sends = st.sends ++ "yes" :: restCmds) ∧
    (∀ st : HopSt, pyContains (pyLower st.output) "password:" = false →
      (pyContains (pyLower st.output) "(yes/no" || pyContains (pyLower st.output) "continue connecting") = false →
      ((pyContains st.output "#" || pyContains st.output ">") && endsPrompt (lastLineOf st.output)) = true →
      hopIter resp password st = (st, true)) ∧
    (∀ (fuel : Nat) (st : HopSt), (hopLoop resp password fuel st).2 = false →
      (hopLoop resp password fuel st).1 = (fun s => (hopIter resp password s).1)^[fuel] st) ∧
    (∀ (devices : List Device) (target_device : Device) (ip : String) (rest : List String)
        (k : Nat) (sends : List String),
      (∀ u pw, (hopLoop resp pw 10 (⟨k + 1, sends ++ ["ssh -l " ++ u ++ " " ++ ip], resp k⟩ : HopSt)).2 = false) →
      chainHops devices target_device resp (ip :: rest) k sends = none) := by
  have hRestSuffix : ∀ st : HopSt, ∃ newCmds, (hopIterRest resp st).1.sends = st.sends ++ newCmds := by
    intro st
    unfold hopIterRest
    split
    · exact ⟨[], by simp⟩
    · split
      · exact ⟨[""], rfl⟩
      · exact ⟨[""], rfl⟩
  have hYesSuffix : ∀ st : HopSt, ∃ newCmds, (hopIterYes resp st).sends = st.sends ++ newCmds := by
    intro st
    unfold hopIterYes
    split
    · exact ⟨["yes"], rfl⟩
    · exact ⟨[], by simp⟩
  refine ⟨?_, ?_, ?_, ?_, ?_⟩
  · intro st hpw
    unfold hopIter
    have h1 : hopIterPw resp password st = ⟨st.k + 1, st.sends ++ [password], resp st.k⟩ := by
      unfold hopIterPw
      rw [if_pos hpw]
    rw [h1]
    rcases hYesSuffix ⟨st.k + 1, st.sends ++ [password], resp st.k⟩ with ⟨c2, hc2⟩
    rcases hRestSuffix (hopIterYes resp ⟨st.k + 1, st.sends ++ [password], resp st.k⟩) with ⟨c3, hc3⟩
    refine ⟨c2 ++ c3, ?_⟩
    rw [hc3, hc2]
    simp
  · intro st hpw hyes
    unfold hopIter
    have h1 : hopIterPw resp password st = st := by
      unfold hopIterPw
      rw [if_neg (by rw [hpw]; exact Bool.false_ne_true)]
    rw [h1]
    have h2 : hopIterYes resp st = ⟨st.k + 1, st.sends ++ ["yes"], resp st.k⟩ := by
      unfold hopIterYes
      rw [if_pos hyes]
    rw [h2]
    rcases hRestSuffix ⟨st.k + 1, st.sends ++ ["yes"], resp st.k⟩ with ⟨c3, hc3⟩
    refine ⟨c3, ?_⟩
    rw [hc3]
    simp
  · intro st hpw hyes hprompt
    unfold hopIter
    have h1 : hopIterPw resp password st = st := by
      unfold hopIterPw
      rw [if_neg (by rw [hpw]; exact Bool.false_ne_true)]
    have h2 : hopIterYes resp st = st := by
      unfold hopIterYes
      rw [if_neg (by rw [hyes]; exact Bool.false_ne_true)]
    rw [h1, h2]
    unfold hopIterRest
    rw [if_pos hprompt]
  · intro fuel
    induction fuel with
    | zero => intro st _; rfl
    | succ n ih =>
      intro st hfail
      rw [hopLoop] at hfail ⊢
      rcases hit : (hopIter resp password st).2 with _ | _
      · simp only [hit, Bool.false_eq_true, if_neg, not_false_iff] at hfail ⊢
        rw [ih _ hfail, Function.iterate_succ_apply]
      · simp only [hit, if_pos] at hfail
        exact Bool.noConfusion hfail
  · intro devices target_device ip rest k sends hfail
    unfold chainHops
    split
    · simp [hfail]
    · rcases hfind : devices.find? (fun d => d.host == ip) with _ | d
      · simp [hfind]
      · by_cases hcred : (d.username = "" || d.password = "") = true
        · simp [hfind, hcred]
        · simp [hfind, hcred, hfail]

/-- Claim C6 witness: the amended per-iteration order and the chain
failure exercised on concrete sessions. -/
theorem claim_C6_witness :
    (∃ restCmds, (hopIter (fun _ => "") "pw" ⟨0, [], "Password:"⟩).1.sends = ([] : List String) ++ "pw" :: restCmds) ∧
    (hopIter (fun _ => "") "pw" ⟨0, [], "R1#"⟩ = (⟨0, [], "R1#"⟩, true)) := by
  constructor
  · exact (claim_C6 (fun _ => "") "pw").1 ⟨0, [], "Password:"⟩ (by decide)
  · exact (claim_C6 (fun _ => "") "pw").2.2.1 ⟨0, [], "R1#"⟩ (by decide) (by decide) (by decide)

theorem parse_cdp_blockE_ok (b : List Char) : parse_cdp_blockE b = .ok (parse_cdp_block b) := by
  unfold parse_cdp_blockE parse_cdp_block
  rcases hlines : (splitLinesC b).filter (fun ln => !(stripChars ln).isEmpty) with _ | ⟨first, rest⟩
  · simp [hlines, pure, Except.pure]
  · simp only [hlines]
    rcases hli : searchPos matchInterfaceAt b with _ | li
    · simp [hli, listGetE, bind, Except.bind, pure, Except.pure]
    · by_cases hsys : (⟨stripChars first⟩ : String) = ""
      · simp [hli, hsys, listGetE, groupE, bind, Except.bind, pure, Except.pure]
      · simp [hli, hsys, listGetE, groupE, bind, Except.bind, pure, Except.pure]

theorem parse_cdp_blocksE_ok (bs : List (List Char)) :
    parse_cdp_blocksE bs = .ok (bs.filterMap parse_cdp_block) := by
  induction bs with
  | nil => rfl
  | cons b rest ih =>
    simp only [parse_cdp_blocksE, parse_cdp_blockE_ok b, ih, bind, Except.bind, List.filterMap_cons]
    rcases parse_cdp_block b with _ | l <;> rfl

theorem parse_lldp_blockE_ok (b : List Char) : parse_lldp_blockE b = .ok (parse_lldp_block b) := by
  unfold parse_lldp_blockE parse_lldp_block
  by_cases hblank : (stripChars b).isEmpty = true
  · simp [hblank, pure, Except.pure]
  · rcases hli : searchPos matchLocalIntfAt b with _ | li
    · simp [hblank, hli, groupE, bind, Except.bind, pure, Except.pure]
    · rcases hsn : searchPos (matchLitLineAt "System Name:".data) b with _ | sn
      · simp [hblank, hli, hsn, groupE, bind, Except.bind, pure, Except.pure]
      · simp [hblank, hli, hsn, groupE, bind, Except.bind, pure, Except.pure]

theorem parse_lldp_blocksE_ok (bs : List (List Char)) :
    parse_lldp_blocksE bs = .ok (bs.filterMap parse_lldp_block) := by
  induction bs with
  | nil => rfl
  | cons b rest ih =>
    simp only [parse_lldp_blocksE, parse_lldp_blockE_ok b, ih, bind, Except.bind, List.filterMap_cons]
    rcases parse_lldp_block b with _ | l <;> rfl

theorem classifySix (n : CapSet) :
    (if n.router && n.switch then "layer3_switch"
     else if n.router then "router" else if n.switch then "switch"
     else if n.ap then "ap" else if n.endDev then "end" else "unknown")
      ∈ ["layer3_switch", "router", "switch", "ap", "end", "unknown"] := by
  rcases n with ⟨r, sw, e, a⟩
  cases r <;> cases sw <;> cases e <;> cases a <;> simp

/-- Claim C9: the CDP parser, the LLDP parser, and the capability
classifier are total — the exception-explicit renderings (where
subscripting and `.group(1)` can raise) return `.ok` of the pure result
on every input string, and the classifier always returns one of the six
device-type tags, never an error. -/
theorem claim_C9 (s : String) :
    parse_cdp_ciscoE s = .ok (parse_cdp_cisco s) ∧
    parse_lldp_ciscoE s = .ok (parse_lldp_cisco s) ∧
    classify_from_cdp_caps s ∈ ["layer3_switch", "router", "switch", "ap", "end", "unknown"] := by
  refine ⟨?_, ?_, ?_⟩
  · unfold parse_cdp_ciscoE parse_cdp_cisco
    rcases hsp : splitDeviceId s.data with _ | ⟨b0, blocks⟩
    · rfl
    · exact parse_cdp_blocksE_ok blocks
  · unfold parse_lldp_ciscoE parse_lldp_cisco
    exact parse_lldp_blocksE_ok _
  · rw [classify_from_cdp_caps]
    split
    · simp
    · exact classifySix _

theorem pyLowerChar_digit (d : Char) (hd : digitChar d = true) : pyLowerChar d = d := by
  unfold digitChar at hd
  unfold pyLowerChar
  rw [if_neg]
  intro ⟨h1, _⟩
  have h2 : d ≤ '9' := by
    simpa using (Bool.and_elim_right hd)
  exact absurd (le_trans h1 h2) (by decide)

theorem letter_beq_digit (a d : Char) (hd : digitChar d = true) (ha : digitChar a = false) :
    (a == d) = false := by
  apply beq_false_of_ne
  intro h
  rw [h, hd] at ha
  exact Bool.noConfusion ha

theorem lower_beq_digit (a d : Char) (hd : digitChar d = true) (hla : pyLowerChar a = a)
    (ha : digitChar a = false) : (pyLowerChar a == pyLowerChar d) = false := by
  rw [hla, pyLowerChar_digit d hd]
  exact letter_beq_digit a d hd ha

theorem dropWhile_noop (p : Char → Bool) (l : List Char)
    (h : ∀ c ∈ l.head?, p c = false) : l.dropWhile p = l := by
  cases l with
  | nil => rfl
  | cons a as =>
    have h2 := h a (by simp)
    simp [List.dropWhile_cons, h2]

theorem getLast?_of_suffix {l₁ l₂ : List Char} (h : l₁ <:+ l₂) (hne : l₁ ≠ []) :
    l₂.getLast? = l₁.getLast? := by
  obtain ⟨pre, rfl⟩ := h
  rw [List.getLast?_append]
  rcases h1 : l₁.getLast? with _ | c
  · exact absurd (List.getLast?_eq_none_iff.mp h1) hne
  · rfl

theorem strip_noop (l : List Char)
    (h1 : ∀ c ∈ l.head?, isSpaceChar c = false)
    (h2 : ∀ c ∈ l.getLast?, isSpaceChar c = false) : stripChars l = l := by
  unfold stripChars
  rw [dropWhile_noop _ _ h1]
  rw [dropWhile_noop, List.reverse_reverse]
  intro c hc
  rw [List.head?_reverse] at hc
  exact h2 c hc

theorem strip_last (l : List Char) :
    ∀ c ∈ (stripChars l).getLast?, isSpaceChar c = false := by
  intro c hc
  unfold stripChars at hc
  rw [List.getLast?_eq_head?_reverse, List.reverse_reverse] at hc
  have h3 := List.head?_dropWhile_not isSpaceChar ((l.dropWhile isSpaceChar).reverse)
  rw [hc] at h3
  exact h3

theorem strip_head (l : List Char) :
    ∀ c ∈ (stripChars l).head?, isSpaceChar c = false := by
  intro c hc
  unfold stripChars at hc
  rw [List.head?_reverse] at hc
  by_cases hq : (((l.dropWhile isSpaceChar).reverse).dropWhile isSpaceChar) = []
  · rw [hq] at hc
    exact Option.noConfusion hc
  · have hsuf := List.dropWhile_suffix (l := (l.dropWhile isSpaceChar).reverse) isSpaceChar
    have heq := getLast?_of_suffix hsuf hq
    rw [← heq, List.getLast?_eq_head?_reverse, List.reverse_reverse] at hc
    have h3 := List.head?_dropWhile_not isSpaceChar l
    rw [hc] at h3
    exact h3

theorem strip_idem (l : List Char) : stripChars (stripChars l) = stripChars l :=
  strip_noop _ (strip_head l) (strip_last l)

theorem ciMatch_suffix (pat : List Char) :
    ∀ (s rest : List Char), ciMatch pat s = some rest → rest <:+ s := by
  induction pat with
  | nil =>
    intro s rest h
    rw [ciMatch] at h
    cases h
    exact List.suffix_rfl
  | cons a as ih =>
    intro s rest h
    cases s with
    | nil => exact Option.noConfusion h
    | cons c cs =>
      rw [ciMatch] at h
      split at h
      · exact (ih cs rest h).trans (List.suffix_cons c cs)
      · exact Option.noConfusion h

theorem tryAlt_some {alt : String} {s rest : List Char} (h : tryAlt alt s = some rest) :
    rest <:+ s ∧ ∃ d t, rest = d :: t ∧ digitChar d = true := by
  unfold tryAlt at h
  split at h
  · exact Option.noConfusion h
  · rename_i r hm
    split at h
    · exact Option.noConfusion h
    · rename_i c cs
      split at h
      · cases h
        exact ⟨ciMatch_suffix _ _ _ hm, c, cs, rfl, by assumption⟩
      · exact Option.noConfusion h

theorem ifPatAlts_some {alts : List String} {s rest : List Char}
    (h : ifPatAlts alts s = some rest) :
    rest <:+ s ∧ ∃ d t, rest = d :: t ∧ digitChar d = true := by
  unfold ifPatAlts at h
  obtain ⟨alt, _, ha⟩ := List.exists_of_findSome?_eq_some h
  exact tryAlt_some ha

theorem normChars_short_fixed (a b d : Char) (t : List Char)
    (hS : (a, b) ∈ [('G','i'), ('T','e'), ('F','a'), ('E','t'), ('P','o'), ('L','o'), ('V','l')])
    (hd : digitChar d = true)
    (ht : stripChars (a :: b :: d :: t) = a :: b :: d :: t) :
    normChars (a :: b :: d :: t) = a :: b :: d :: t := by
  have hg : (pyLowerChar 'g' == pyLowerChar d) = false :=
    lower_beq_digit 'g' d hd (by decide) (by decide)
  have hn : (pyLowerChar 'n' == pyLowerChar d) = false :=
    lower_beq_digit 'n' d hd (by decide) (by decide)
  have hs2 : (pyLowerChar 's' == pyLowerChar d) = false :=
    lower_beq_digit 's' d hd (by decide) (by decide)
  have hh : (pyLowerChar 'h' == pyLowerChar d) = false :=
    lower_beq_digit 'h' d hd (by decide) (by decide)
  have hr : (pyLowerChar 'r' == pyLowerChar d) = false :=
    lower_beq_digit 'r' d hd (by decide) (by decide)
  have ho : (pyLowerChar 'o' == pyLowerChar d) = false :=
    lower_beq_digit 'o' d hd (by decide) (by decide)
  have ha2 : (pyLowerChar 'a' == pyLowerChar d) = false :=
    lower_beq_digit 'a' d hd (by decide) (by decide)
  simp only [List.mem_cons, List.not_mem_nil, or_false, Prod.mk.injEq] at hS
  rcases hS with ⟨rfl, rfl⟩ | ⟨rfl, rfl⟩ | ⟨rfl, rfl⟩ | ⟨rfl, rfl⟩ | ⟨rfl, rfl⟩ | ⟨rfl, rfl⟩ | ⟨rfl, rfl⟩ <;>
    simp +decide [normChars, _IF_PREFIX_MAP, ifPatAlts, tryAlt, ciMatch, ht, hd, hg, hn, hs2, hh, hr, ho, ha2, List.findSome?]

theorem normChars_prefix_fixed (a b d : Char) (t : List Char)
    (hS : (a, b) ∈ [('G','i'), ('T','e'), ('F','a'), ('E','t'), ('P','o'), ('L','o'), ('V','l')])
    (hna : isSpaceChar a = false)
    (hd : digitChar d = true)
    (hlast : ∀ c ∈ (d :: t).getLast?, isSpaceChar c = false) :
    normChars (a :: b :: d :: t) = a :: b :: d :: t := by
  apply normChars_short_fixed a b d t hS hd
  apply strip_noop
  · intro c hc
    simp only [List.head?_cons, Option.mem_def, Option.some.injEq] at hc
    subst hc
    exact hna
  · intro c hc
    have h4 : (a :: b :: d :: t : List Char).getLast? = (d :: t).getLast? := by
      rw [show (a :: b :: d :: t : List Char) = [a, b] ++ d :: t from rfl, List.getLast?_append]
      rcases h9 : (d :: t : List Char).getLast? with _ | c9
      · exact absurd (List.getLast?_eq_none_iff.mp h9) (by simp)
      · rfl
    rw [h4] at hc
    exact hlast c hc

theorem normChars_idem (l : List Char) : normChars (normChars l) = normChars l := by
  by_cases hl : l = []
  · subst hl
    rfl
  · rcases hE : _IF_PREFIX_MAP.findSome?
        (fun pr => (ifPatAlts pr.1 (stripChars l)).map (fun rest => pr.2.data ++ rest)) with _ | r
    · have hdef : normChars l = stripChars l := by
        simp only [normChars, if_neg hl, hE]
      rw [hdef]
      by_cases hn : stripChars l = []
      · rw [hn]
        rfl
      · have h5 := strip_idem l
        simp only [normChars, if_neg hn, h5, hE]
    · have hdef : normChars l = r := by
        simp only [normChars, if_neg hl, hE]
      obtain ⟨pr, hmem, hpr⟩ := List.exists_of_findSome?_eq_some hE
      rw [Option.map_eq_some'] at hpr
      obtain ⟨rest, hifp, hr⟩ := hpr
      obtain ⟨hsuf, d, t, rfl, hd⟩ := ifPatAlts_some hifp
      rw [hdef]
      subst hr
      have hlast : ∀ c ∈ (d :: t : List Char).getLast?, isSpaceChar c = false := by
        intro c hc
        have h2 := getLast?_of_suffix hsuf (by simp)
        exact strip_last l c (by rw [h2]; exact hc)
      fin_cases hmem
      · exact normChars_prefix_fixed 'G' 'i' d t (by decide) (by decide) hd hlast
      · exact normChars_prefix_fixed 'T' 'e' d t (by decide) (by decide) hd hlast
      · exact normChars_prefix_fixed 'F' 'a' d t (by decide) (by decide) hd hlast
      · exact normChars_prefix_fixed 'E' 't' d t (by decide) (by decide) hd hlast
      · exact normChars_prefix_fixed 'P' 'o' d t (by decide) (by decide) hd hlast
      · exact normChars_prefix_fixed 'L' 'o' d t (by decide) (by decide) hd hlast
      · exact normChars_prefix_fixed 'V' 'l' d t (by decide) (by decide) hd hlast

/-- Claim C8: interface-name normalization is idempotent — for every
input string x, normalize_if_name (normalize_if_name x) =
normalize_if_name x. -/
theorem claim_C8 (x : String) :
    normalize_if_name (normalize_if_name x) = normalize_if_name x := by
  unfold normalize_if_name
  exact congrArg (fun L => (⟨L⟩ : String)) (normChars_idem x.data)

theorem bfsLoop_nil (g : List (String × List String)) (target : String)
    (V : Finset String) (best : Option (List String)) :
    bfsLoop g target [] V best = best := by
  rw [bfsLoop]

theorem bfsLoop_cons_none (g : List (String × List String)) (target current : String)
    (path : List String) (rest : List (String × List String)) (V : Finset String)
    (best : Option (List String)) (hl : adjLookup g current = none) :
    bfsLoop g target ((current, path) :: rest) V best = bfsLoop g target rest V best := by
  rw [bfsLoop]
  split
  · rfl
  · rename_i nbrs h2
    rw [hl] at h2
    exact Option.noConfusion h2

theorem bfsLoop_cons_some (g : List (String × List String)) (target current : String)
    (path : List String) (rest : List (String × List String)) (V : Finset String)
    (best : Option (List String)) (nbrs : List String)
    (hl : adjLookup g current = some nbrs) :
    bfsLoop g target ((current, path) :: rest) V best =
      bfsLoop g target (rest ++ (processNbrs target path nbrs V best).2.1)
        (processNbrs target path nbrs V best).1
        (processNbrs target path nbrs V best).2.2 := by
  rw [bfsLoop]
  split
  · rename_i h2
    rw [hl] at h2
    exact Option.noConfusion h2
  · rename_i nbrs2 h2
    rw [hl] at h2
    cases h2
    rfl

theorem processNbrs_visited_mono (target : String) (path : List String) :
    ∀ (nbrs : List String) (V : Finset String) (best : Option (List String)),
      V ⊆ (processNbrs target path nbrs V best).1 := by
  intro nbrs
  induction nbrs with
  | nil => intro V best; simp [processNbrs]
  | cons n ns ih =>
    intro V best
    by_cases hv : n ∈ V
    · rw [processNbrs, if_pos hv]
      exact ih V best
    · rw [processNbrs, if_neg hv]
      by_cases ht : n = target
      · simp only [if_pos ht]
        exact fun x hx => Finset.mem_insert_of_mem hx
      · simp only [if_neg ht]
        exact fun x hx => ih (insert n V) best (Finset.mem_insert_of_mem hx)

theorem processNbrs_target_in (target : String) (path : List String)
    (nbrs : List String) (V : Finset String) (best : Option (List String))
    (h : target ∈ V) : target ∈ (processNbrs target path nbrs V best).1 :=
  processNbrs_visited_mono target path nbrs V best h

theorem processNbrs_best_frozen (target : String) (path : List String) :
    ∀ (nbrs : List String) (V : Finset String) (best : Option (List String)),
      target ∈ V → (processNbrs target path nbrs V best).2.2 = best := by
  intro nbrs
  induction nbrs with
  | nil => intro V best _; simp [processNbrs]
  | cons n ns ih =>
    intro V best h
    by_cases hv : n ∈ V
    · rw [processNbrs, if_pos hv]
      exact ih V best h
    · rw [processNbrs, if_neg hv]
      have ht : n ≠ target := fun he => hv (he ▸ h)
      simp only [if_neg ht]
      exact ih (insert n V) best (Finset.mem_insert_of_mem h)

theorem bfs_phase2 (g : List (String × List String)) (target : String) :
    ∀ (q : List (String × List String)) (V : Finset String) (best : Option (List String)),
      target ∈ V → bfsLoop g target q V best = best := by
  intro q V best
  induction q, V, best using bfsLoop.induct g target with
  | case1 V best => intro _; exact bfsLoop_nil g target V best
  | case2 current path rest V best hl ih =>
    intro h
    rw [bfsLoop_cons_none g target current path rest V best hl]
    exact ih h
  | case3 current path rest V best nbrs hl r ih =>
    intro h
    rw [bfsLoop_cons_some g target current path rest V best nbrs hl]
    have h1 := processNbrs_target_in target path nbrs V best h
    have h2 := processNbrs_best_frozen target path nbrs V best h
    exact (ih h1).trans h2
theorem walk_singleton (g : List (String × List String)) (s : String) :
    WalkFromTo g s s [s] :=
  ⟨⟨by simp, List.chain'_singleton s⟩, rfl, rfl⟩

theorem walk_len_pos {g : List (String × List String)} {s x : String} {p : List String}
    (h : WalkFromTo g s x p) : 1 ≤ p.length := by
  rcases h with ⟨⟨hne, _⟩, _, _⟩
  cases p with
  | nil => exact absurd rfl hne
  | cons c cs => simp

theorem walk_len_one {g : List (String × List String)} {s x : String} {p : List String}
    (h : WalkFromTo g s x p) (hlen : p.length = 1) : x = s := by
  rcases h with ⟨_, hhead, hlast⟩
  obtain ⟨c, rfl⟩ := List.length_eq_one.mp hlen
  simp only [List.head?_cons, Option.some.injEq] at hhead
  simp only [List.getLast?_singleton, Option.some.injEq] at hlast
  rw [← hhead, ← hlast]

theorem walk_snoc {g : List (String × List String)} {s u v : String} {p : List String}
    (h : WalkFromTo g s u p) (hadj : v ∈ adjList g u) :
    WalkFromTo g s v (p ++ [v]) := by
  rcases h with ⟨⟨hne, hch⟩, hhead, hlast⟩
  refine ⟨⟨by simp, ?_⟩, ?_, ?_⟩
  · refine List.Chain'.append hch (List.chain'_singleton v) ?_
    intro x hx y hy
    simp only [List.head?_cons, Option.mem_def, Option.some.injEq] at hy
    rw [Option.mem_def, hlast, Option.some.injEq] at hx
    rw [← hy, ← hx]
    exact hadj
  · rw [List.head?_append, hhead]
    rfl
  · rw [List.getLast?_append]
    rfl

theorem walk_unsnoc {g : List (String × List String)} {s x : String} {p : List String}
    (h : WalkFromTo g s x p) (hlen : 2 ≤ p.length) :
    ∃ p' u, p = p' ++ [x] ∧ WalkFromTo g s u p' ∧ x ∈ adjList g u ∧
      p'.length + 1 = p.length := by
  rcases h with ⟨⟨hne, hch⟩, hhead, hlast⟩
  rcases List.eq_nil_or_concat p with rfl | ⟨p', c, rfl⟩
  · exact absurd rfl hne
  · simp only [List.concat_eq_append] at hlen hne hch hhead hlast ⊢
    have hc : c = x := by
      rw [List.getLast?_append] at hlast
      simpa using hlast
    subst hc
    have hp'ne : p' ≠ [] := by
      intro h0
      subst h0
      simp at hlen
    obtain ⟨u, hu⟩ := Option.isSome_iff_exists.mp (List.getLast?_isSome.mpr hp'ne)
    rw [List.chain'_append] at hch
    obtain ⟨hch1, _, hcross⟩ := hch
    refine ⟨p', u, rfl, ⟨⟨hp'ne, hch1⟩, ?_, hu⟩, ?_, by simp⟩
    · rw [List.head?_append] at hhead
      cases hh : p'.head? with
      | none => exact absurd (List.head?_eq_none_iff.mp hh) hp'ne
      | some y =>
        rw [hh] at hhead
        simpa using hhead
    · exact hcross u hu c rfl

theorem walk_closure (g : List (String × List String)) (V : Finset String) (s : String)
    (hcl : ∀ u ∈ V, ∀ v ∈ adjList g u, v ∈ V) (hs : s ∈ V) :
    ∀ (L : Nat) (p : List String) (x : String), p.length ≤ L → WalkFromTo g s x p → x ∈ V := by
  intro L
  induction L with
  | zero =>
    intro p x hlen hw
    exact absurd (le_trans (walk_len_pos hw) hlen) (by simp)
  | succ L ih =>
    intro p x hlen hw
    by_cases h1 : p.length ≤ 1
    · have : p.length = 1 := le_antisymm h1 (walk_len_pos hw)
      rw [walk_len_one hw this]
      exact hs
    · obtain ⟨p', u, _, hw', hadj, hplen⟩ := walk_unsnoc hw (by omega)
      have hu : u ∈ V := ih p' u (by omega) hw'
      exact hcl u hu x hadj

theorem processNbrs_no_target (target : String) (path : List String) :
    ∀ (nbrs : List String) (V : Finset String) (best : Option (List String)),
      target ∉ nbrs →
      (processNbrs target path nbrs V best).2.2 = best ∧
      (∀ n ∈ nbrs, n ∈ (processNbrs target path nbrs V best).1) ∧
      (∀ e ∈ (processNbrs target path nbrs V best).2.1,
        ∃ n, e = (n, path ++ [n]) ∧ n ∈ nbrs ∧ n ∉ V) ∧
      (∀ x ∈ (processNbrs target path nbrs V best).1, x ∈ V ∨ x ∈ nbrs) ∧
      (∀ n ∈ nbrs, n ∉ V → (n, path ++ [n]) ∈ (processNbrs target path nbrs V best).2.1) := by
  intro nbrs
  induction nbrs with
  | nil =>
    intro V best _
    refine ⟨rfl, by simp, by simp [processNbrs], by simp [processNbrs], by simp⟩
  | cons n ns ih =>
    intro V best htn
    have htn' : target ∉ ns := fun h => htn (List.mem_cons_of_mem n h)
    have hnt : n ≠ target := fun h => htn (h ▸ List.mem_cons_self n ns)
    by_cases hv : n ∈ V
    · obtain ⟨ih1, ih2, ih3, ih4, ih5⟩ := ih V best htn'
      rw [processNbrs, if_pos hv]
      refine ⟨ih1, ?_, ?_, fun x hx => (ih4 x hx).imp id (List.mem_cons_of_mem n), ?_⟩
      · intro n' hn'
        rcases List.mem_cons.mp hn' with rfl | h2
        · exact processNbrs_visited_mono target path ns V best hv
        · exact ih2 n' h2
      · intro e he
        obtain ⟨n', he', hn', hnv'⟩ := ih3 e he
        exact ⟨n', he', List.mem_cons_of_mem n hn', hnv'⟩
      · intro n' hn' hnv
        rcases List.mem_cons.mp hn' with rfl | h2
        · exact absurd hv hnv
        · exact ih5 n' h2 hnv
    · obtain ⟨ih1, ih2, ih3, ih4, ih5⟩ := ih (insert n V) best htn'
      rw [processNbrs, if_neg hv]
      simp only [if_neg hnt]
      refine ⟨ih1, ?_, ?_, ?_, ?_⟩
      · intro n' hn'
        rcases List.mem_cons.mp hn' with rfl | h2
        · exact processNbrs_visited_mono target path ns (insert n' V) best (Finset.mem_insert_self n' V)
        · exact ih2 n' h2
      · intro e he
        rcases List.mem_cons.mp he with rfl | h2
        · exact ⟨n, rfl, List.mem_cons_self n ns, hv⟩
        · obtain ⟨n', he', hn', hnv'⟩ := ih3 e h2
          exact ⟨n', he', List.mem_cons_of_mem n hn',
            fun hm => hnv' (Finset.mem_insert_of_mem hm)⟩
      · intro x hx
        rcases ih4 x hx with h2 | h2
        · rcases Finset.mem_insert.mp h2 with rfl | h3
          · exact Or.inr (List.mem_cons_self x ns)
          · exact Or.inl h3
        · exact Or.inr (List.mem_cons_of_mem n h2)
      · intro n' hn' hnv
        rcases List.mem_cons.mp hn' with rfl | h2
        · exact List.mem_cons_self _ _
        · by_cases hne : n' = n
          · subst hne
            exact List.mem_cons_self _ _
          · exact List.mem_cons_of_mem _
              (ih5 n' h2 (fun hm => hne (by
                rcases Finset.mem_insert.mp hm with h3 | h3
                · exact h3
                · exact absurd h3 hnv)))

theorem processNbrs_finds_target (target : String) (path : List String) :
    ∀ (nbrs : List String) (V : Finset String) (best : Option (List String)),
      target ∈ nbrs → target ∉ V →
      (processNbrs target path nbrs V best).2.2 =
        (if bestBetter best (path ++ [target]) then some (path ++ [target]) else best) ∧
      target ∈ (processNbrs target path nbrs V best).1 := by
  intro nbrs
  induction nbrs with
  | nil => intro V best h _; exact absurd h (List.not_mem_nil target)
  | cons n ns ih =>
    intro V best hmem hvt
    by_cases hv : n ∈ V
    · have hnt : n ≠ target := fun h => hvt (h ▸ hv)
      have h2 : target ∈ ns := by
        rcases List.mem_cons.mp hmem with h3 | h3
        · exact absurd h3.symm hnt
        · exact h3
      rw [processNbrs, if_pos hv]
      exact ih V best h2 hvt
    · by_cases hnt : n = target
      · subst hnt
        rw [processNbrs, if_neg hv]
        simp only [if_pos rfl]
        exact ⟨rfl, Finset.mem_insert_self n V⟩
      · have h2 : target ∈ ns := by
          rcases List.mem_cons.mp hmem with h3 | h3
          · exact absurd h3.symm hnt
          · exact h3
        rw [processNbrs, if_neg hv]
        simp only [if_neg hnt]
        exact ih (insert n V) best h2
          (fun hm => by
            rcases Finset.mem_insert.mp hm with h3 | h3
            · exact hnt h3.symm
            · exact hvt h3)
theorem bfs_level_adv (g : List (String × List String)) (s : String)
    (V : Finset String) (q' : List (String × List String)) (a : Nat)
    (h5 : ∀ x p, WalkFromTo g s x p → p.length ≤ a → x ∈ V)
    (h4 : ∀ u ∈ V, (∀ e ∈ q', e.1 ≠ u) → ∀ v ∈ adjList g u, v ∈ V)
    (h2 : ∀ e ∈ q', ∀ w, WalkFromTo g s e.1 w → e.2.length ≤ w.length)
    (hlen : ∀ e ∈ q', e.2.length = a + 1)
    (hs : s ∈ V) :
    ∀ x p, WalkFromTo g s x p → p.length ≤ a + 1 → x ∈ V := by
  intro x p hw hl
  by_cases hle : p.length ≤ a
  · exact h5 x p hw hle
  · have hpl : p.length = a + 1 := by omega
    by_cases ha : a = 0
    · subst ha
      rw [walk_len_one hw (by omega)]
      exact hs
    · obtain ⟨p', u, _, hw', hadj, hplen⟩ := walk_unsnoc hw (by omega)
      have hu : u ∈ V := h5 u p' hw' (by omega)
      by_cases hqu : ∀ e ∈ q', e.1 ≠ u
      · exact h4 u hu hqu x hadj
      · push_neg at hqu
        obtain ⟨e, he, heu⟩ := hqu
        have hww : WalkFromTo g s e.1 p' := by rw [heu]; exact hw'
        have h9 := h2 e he p' hww
        rw [hlen e he] at h9
        omega

theorem shape_cons {x : Nat} {L : List Nat} {a k m : Nat}
    (h : x :: L = List.replicate k a ++ List.replicate m (a + 1)) :
    (x = a ∧ ∃ j, k = j + 1 ∧ L = List.replicate j a ++ List.replicate m (a + 1)) ∨
    (x = a + 1 ∧ ∃ j, m = j + 1 ∧ L = List.replicate j (a + 1)) := by
  cases k with
  | zero =>
    rw [List.replicate_zero, List.nil_append] at h
    cases m with
    | zero => exact absurd h (by simp)
    | succ j =>
      rw [List.replicate_succ] at h
      injection h with h1 h2
      exact Or.inr ⟨h1, j, rfl, h2⟩
  | succ j =>
    rw [List.replicate_succ, List.cons_append] at h
    injection h with h1 h2
    exact Or.inl ⟨h1, j, rfl, h2⟩

theorem shape_all_mem {L : List Nat} {a k m : Nat}
    (h : L = List.replicate k a ++ List.replicate m (a + 1)) :
    ∀ x ∈ L, x = a ∨ x = a + 1 := by
  subst h
  intro x hx
  rcases List.mem_append.mp hx with h2 | h2
  · exact Or.inl (List.eq_of_mem_replicate h2)
  · exact Or.inr (List.eq_of_mem_replicate h2)

theorem map_len_replicate {path : List String} {b : Nat}
    (ents : List (String × List String))
    (h : ∀ e ∈ ents, ∃ n, e = (n, path ++ [n])) (hb : path.length = b) :
    ents.map (fun e => e.2.length) = List.replicate ents.length (b + 1) := by
  have h2 : ∀ x ∈ ents.map (fun e => e.2.length), x = b + 1 := by
    intro x hx
    obtain ⟨e, he, hex⟩ := List.mem_map.mp hx
    obtain ⟨n, rfl⟩ := h e he
    simp only [← hex]
    simp [hb]
  have h3 := List.eq_replicate_of_mem h2
  simpa using h3
theorem bfs_phase1 (g : List (String × List String)) (target s : String) :
    ∀ (q : List (String × List String)) (V : Finset String) (best : Option (List String))
      (a : Nat), BfsInv g target s q V a →
        ((¬ Reaches g s target → bfsLoop g target q V best = best) ∧
         (∀ D, ShortestWalkLen g s target D →
            ∃ p, WalkFromTo g s target p ∧ p.length = D ∧
              bfsLoop g target q V best = if bestBetter best p then some p else best)) := by
  intro q V best
  induction q, V, best using bfsLoop.induct g target with
  | case1 V best =>
    intro a hInv
    obtain ⟨h1, h2, h3, h4, h5, h6, h7⟩ := hInv
    constructor
    · intro _
      exact bfsLoop_nil g target V best
    · intro D hD
      exfalso
      obtain ⟨⟨p0, hp0, _⟩, _⟩ := hD
      exact h6 (walk_closure g V s (fun u hu => h4 u hu (by simp)) h7 p0.length p0 target le_rfl hp0)
  | case2 current path rest V best hl ih =>
    intro a hInv
    obtain ⟨h1, h2, h3, h4, h5, h6, h7⟩ := hInv
    obtain ⟨k, m, hshape⟩ := h3
    rw [List.map_cons] at hshape
    have hempty : adjList g current = [] := by
      unfold adjList
      rw [hl]
      rfl
    have mk4 : ∀ u ∈ V, (∀ e ∈ rest, e.1 ≠ u) → ∀ v ∈ adjList g u, v ∈ V := by
      intro u hu hq v hv
      by_cases hc : u = current
      · rw [hc, hempty] at hv
        exact absurd hv (List.not_mem_nil v)
      · refine h4 u hu ?_ v hv
        intro e he
        rcases List.mem_cons.mp he with rfl | h8
        · exact fun h9 => hc h9.symm
        · exact hq e h8
    have m1 : ∀ e ∈ rest, WalkFromTo g s e.1 e.2 ∧ e.1 ∈ V ∧ e.1 ≠ target :=
      fun e he => h1 e (List.mem_cons_of_mem _ he)
    have m2 : ∀ e ∈ rest, ∀ w, WalkFromTo g s e.1 w → e.2.length ≤ w.length :=
      fun e he => h2 e (List.mem_cons_of_mem _ he)
    rcases shape_cons hshape with ⟨hx, j, hk, hrest⟩ | ⟨hx, j, hm, hrest⟩
    · have hInv' : BfsInv g target s rest V a :=
        ⟨m1, m2, ⟨j, m, hrest⟩, mk4, h5, h6, h7⟩
      have key := ih a hInv'
      constructor
      · intro hnr
        rw [bfsLoop_cons_none g target current path rest V best hl]
        exact key.1 hnr
      · intro D hD
        obtain ⟨p, hp1, hp2, hp3⟩ := key.2 D hD
        exact ⟨p, hp1, hp2, by
          rw [bfsLoop_cons_none g target current path rest V best hl]
          exact hp3⟩
    · have hall : ∀ e ∈ (current, path) :: rest, e.2.length = a + 1 := by
        intro e he
        rcases List.mem_cons.mp he with rfl | h8
        · exact hx
        · have h9 : e.2.length ∈ rest.map (fun e => e.2.length) := List.mem_map_of_mem _ h8
          rw [hrest] at h9
          exact List.eq_of_mem_replicate h9
      have h5' := bfs_level_adv g s V ((current, path) :: rest) a h5 h4 h2 hall h7
      have hInv' : BfsInv g target s rest V (a + 1) :=
        ⟨m1, m2, ⟨j, 0, by rw [hrest]; simp⟩, mk4, h5', h6, h7⟩
      have key := ih (a + 1) hInv'
      constructor
      · intro hnr
        rw [bfsLoop_cons_none g target current path rest V best hl]
        exact key.1 hnr
      · intro D hD
        obtain ⟨p, hp1, hp2, hp3⟩ := key.2 D hD
        exact ⟨p, hp1, hp2, by
          rw [bfsLoop_cons_none g target current path rest V best hl]
          exact hp3⟩
  | case3 current path rest V best nbrs hl r ih =>
    intro a hInv
    obtain ⟨h1, h2, h3, h4, h5, h6, h7⟩ := hInv
    obtain ⟨k, m, hshape⟩ := h3
    rw [List.map_cons] at hshape
    have hadjl : adjList g current = nbrs := by
      unfold adjList
      rw [hl]
      rfl
    obtain ⟨hwcur, hcurV, hcurT⟩ := h1 (current, path) (List.mem_cons_self _ _)
    have m1 : ∀ e ∈ rest, WalkFromTo g s e.1 e.2 ∧ e.1 ∈ V ∧ e.1 ≠ target :=
      fun e he => h1 e (List.mem_cons_of_mem _ he)
    have m2 : ∀ e ∈ rest, ∀ w, WalkFromTo g s e.1 w → e.2.length ≤ w.length :=
      fun e he => h2 e (List.mem_cons_of_mem _ he)
    have hcore : ∀ (b jA mA : Nat), path.length = b →
        rest.map (fun e => e.2.length) = List.replicate jA b ++ List.replicate mA (b + 1) →
        (∀ x p, WalkFromTo g s x p → p.length ≤ b → x ∈ V) →
        ((¬ Reaches g s target → bfsLoop g target ((current, path) :: rest) V best = best) ∧
         (∀ D, ShortestWalkLen g s target D →
            ∃ p, WalkFromTo g s target p ∧ p.length = D ∧
              bfsLoop g target ((current, path) :: rest) V best =
                if bestBetter best p then some p else best)) := by
      intro b jA mA hxb hrestb h5b
      by_cases hT : target ∈ nbrs
      · obtain ⟨hbest, htin⟩ := processNbrs_finds_target target path nbrs V best hT h6
        have hres : bfsLoop g target ((current, path) :: rest) V best =
            (processNbrs target path nbrs V best).2.2 := by
          rw [bfsLoop_cons_some g target current path rest V best nbrs hl]
          exact bfs_phase2 g target _ _ _ htin
        have hwc : WalkFromTo g s target (path ++ [target]) :=
          walk_snoc hwcur (by rw [hadjl]; exact hT)
        have hclen : (path ++ [target]).length = b + 1 := by simp [hxb]
        have hmin : ∀ w, WalkFromTo g s target w → b + 1 ≤ w.length := by
          intro w hw
          by_contra hlt
          push_neg at hlt
          exact h6 (h5b target w hw (by omega))
        constructor
        · intro hnr
          exact absurd ⟨path ++ [target], hwc⟩ hnr
        · intro D hD
          obtain ⟨⟨p0, hp0, hp0len⟩, hDmin⟩ := hD
          have hD1 : D ≤ b + 1 := by
            have h9 := hDmin (path ++ [target]) hwc
            rw [hclen] at h9
            exact h9
          have hD2 : b + 1 ≤ D := by
            have h9 := hmin p0 hp0
            omega
          refine ⟨path ++ [target], hwc, by rw [hclen]; omega, ?_⟩
          rw [hres, hbest]
      · obtain ⟨hB1, hB2, hB3, hB4, hB5⟩ := processNbrs_no_target target path nbrs V best hT
        have hmono := processNbrs_visited_mono target path nbrs V best
        have hfreshE : ∀ e ∈ (processNbrs target path nbrs V best).2.1,
            ∃ n, e = (n, path ++ [n]) := by
          intro e he
          obtain ⟨n, he1, _, _⟩ := hB3 e he
          exact ⟨n, he1⟩
        have hInv' : BfsInv g target s (rest ++ (processNbrs target path nbrs V best).2.1)
            (processNbrs target path nbrs V best).1 b := by
          refine ⟨?_, ?_, ?_, ?_, ?_, ?_, ?_⟩
          · intro e he
            rcases List.mem_append.mp he with h8 | h8
            · obtain ⟨hw1, hv1, ht1⟩ := m1 e h8
              exact ⟨hw1, hmono hv1, ht1⟩
            · obtain ⟨n, rfl, hn1, hn2⟩ := hB3 e h8
              refine ⟨walk_snoc hwcur (by rw [hadjl]; exact hn1), hB2 n hn1, ?_⟩
              exact fun h9 => hT (h9 ▸ hn1)
          · intro e he w hw
            rcases List.mem_append.mp he with h8 | h8
            · exact m2 e h8 w hw
            · obtain ⟨n, rfl, hn1, hn2⟩ := hB3 e h8
              by_contra hlt
              push_neg at hlt
              have h9 : (n, path ++ [n]).2.length = b + 1 := by simp [hxb]
              exact hn2 (h5b n w hw (by omega))
          · refine ⟨jA, mA + (processNbrs target path nbrs V best).2.1.length, ?_⟩
            rw [List.map_append, hrestb, map_len_replicate _ hfreshE hxb, List.append_assoc,
              ← List.replicate_add]
          · intro u hu hq v hv
            by_cases huV : u ∈ V
            · by_cases hc : u = current
              · subst hc
                rw [hadjl] at hv
                exact hB2 v hv
              · have h9 : ∀ e ∈ (current, path) :: rest, e.1 ≠ u := by
                  intro e he
                  rcases List.mem_cons.mp he with rfl | h10
                  · exact fun h11 => hc h11.symm
                  · exact hq e (List.mem_append_left _ h10)
                exact hmono (h4 u huV h9 v hv)
            · rcases hB4 u hu with h8 | h8
              · exact absurd h8 huV
              · exact absurd rfl (hq (u, path ++ [u]) (List.mem_append_right _ (hB5 u h8 huV)))
          · intro x p hw hle
            exact hmono (h5b x p hw hle)
          · intro h9
            rcases hB4 target h9 with h10 | h10
            · exact h6 h10
            · exact hT h10
          · exact hmono h7
        have key : (¬ Reaches g s target →
              bfsLoop g target (rest ++ (processNbrs target path nbrs V best).2.1)
                (processNbrs target path nbrs V best).1
                (processNbrs target path nbrs V best).2.2 =
                (processNbrs target path nbrs V best).2.2) ∧
            (∀ D, ShortestWalkLen g s target D →
              ∃ p, WalkFromTo g s target p ∧ p.length = D ∧
                bfsLoop g target (rest ++ (processNbrs target path nbrs V best).2.1)
                  (processNbrs target path nbrs V best).1
                  (processNbrs target path nbrs V best).2.2 =
                  if bestBetter (processNbrs target path nbrs V best).2.2 p then some p
                  else (processNbrs target path nbrs V best).2.2) := ih b hInv'
        constructor
        · intro hnr
          rw [bfsLoop_cons_some g target current path rest V best nbrs hl, key.1 hnr, hB1]
        · intro D hD
          obtain ⟨p, hp1, hp2, hp3⟩ := key.2 D hD
          refine ⟨p, hp1, hp2, ?_⟩
          rw [bfsLoop_cons_some g target current path rest V best nbrs hl, hp3, hB1]
    rcases shape_cons hshape with ⟨hx, j, hk, hrest⟩ | ⟨hx, j, hm, hrest⟩
    · exact hcore a j m hx hrest h5
    · have hall : ∀ e ∈ (current, path) :: rest, e.2.length = a + 1 := by
        intro e he
        rcases List.mem_cons.mp he with rfl | h8
        · exact hx
        · have h9 : e.2.length ∈ rest.map (fun e => e.2.length) := List.mem_map_of_mem _ h8
          rw [hrest] at h9
          exact List.eq_of_mem_replicate h9
      have h5' := bfs_level_adv g s V ((current, path) :: rest) a h5 h4 h2 hall h7
      exact hcore (a + 1) j 0 hx (by rw [hrest]; simp) h5'
theorem exists_shortest {g : List (String × List String)} {s target : String}
    (hR : Reaches g s target) : ∃ D, ShortestWalkLen g s target D := by
  classical
  obtain ⟨p, hp⟩ := hR
  have hne : ∃ n, ∃ q, WalkFromTo g s target q ∧ q.length = n := ⟨p.length, p, hp, rfl⟩
  refine ⟨Nat.find hne, Nat.find_spec hne, ?_⟩
  intro w hw
  exact Nat.find_min' hne ⟨w, hw, rfl⟩

theorem bfs_run (g : List (String × List String)) (target s : String)
    (best : Option (List String)) (hst : s ≠ target) :
    (¬ Reaches g s target → bfsLoop g target [(s, [s])] {s} best = best) ∧
    (∀ D, ShortestWalkLen g s target D →
      ∃ p, WalkFromTo g s target p ∧ p.length = D ∧
        bfsLoop g target [(s, [s])] {s} best = if bestBetter best p then some p else best) := by
  apply bfs_phase1 g target s [(s, [s])] {s} best 1
  refine ⟨?_, ?_, ⟨1, 0, by simp⟩, ?_, ?_, ?_, ?_⟩
  · intro e he
    rw [List.mem_singleton] at he
    subst he
    exact ⟨walk_singleton g s, Finset.mem_singleton_self s, hst⟩
  · intro e he w hw
    rw [List.mem_singleton] at he
    subst he
    simpa using walk_len_pos hw
  · intro u hu hq v hv
    exact absurd (Finset.mem_singleton.mp hu).symm (hq (s, [s]) (List.mem_singleton_self _))
  · intro x p hw hle
    have h2 := walk_len_one hw (le_antisymm hle (walk_len_pos hw))
    rw [h2]
    exact Finset.mem_singleton_self s
  · exact fun h => hst (Finset.mem_singleton.mp h).symm
  · exact Finset.mem_singleton_self s

theorem tryStarts_target_mem (g : List (String × List String)) (target : String) :
    ∀ (ss : List String) (best : Option (List String)),
      target ∈ ss → tryStartsBfs g target ss best = some [target] := by
  intro ss
  induction ss with
  | nil => intro best h; exact absurd h (List.not_mem_nil _)
  | cons s ss' ih =>
    intro best h
    rw [tryStartsBfs]
    by_cases hs : s = target
    · rw [if_pos hs]
    · rw [if_neg hs]
      refine ih _ ?_
      rcases List.mem_cons.mp h with h2 | h2
      · exact absurd h2.symm hs
      · exact h2

theorem tryStarts_acc (g : List (String × List String)) (target : String) :
    ∀ (ss done : List String) (best : Option (List String)),
      List.Pairwise (fun x y => x < y) (done ++ ss) → target ∉ ss →
      BestAcc g target done best →
      BestAcc g target (done ++ ss) (tryStartsBfs g target ss best) := by
  intro ss
  induction ss with
  | nil =>
    intro done best hp _ hacc
    rw [List.append_nil]
    exact hacc
  | cons s ss' ih =>
    intro done best hp htn hacc
    have hst : s ≠ target := fun h => htn (h ▸ List.mem_cons_self s ss')
    have htn' : target ∉ ss' := fun h => htn (List.mem_cons_of_mem _ h)
    have hcross : ∀ x ∈ done, x < s := by
      intro x hx
      obtain ⟨_, _, h3⟩ := List.pairwise_append.mp hp
      exact h3 x hx s (List.mem_cons_self _ _)
    rw [tryStartsBfs, if_neg hst]
    have hrun := bfs_run g target s best hst
    have hacc1 : BestAcc g target (done ++ [s]) (bfsLoop g target [(s, [s])] {s} best) := by
      by_cases hR : Reaches g s target
      · obtain ⟨D, hDs⟩ := exists_shortest hR
        obtain ⟨p, hp1, hp2, hp3⟩ := hrun.2 D hDs
        rw [hp3]
        rcases best with _ | b
        · rw [show bestBetter none p = true from rfl, if_pos rfl]
          simp only [BestAcc] at hacc ⊢
          refine ⟨s, List.mem_append_right _ (List.mem_singleton_self s), hp1, ?_, ?_⟩
          · intro t ht w hw
            rcases List.mem_append.mp ht with h2 | h2
            · exact absurd ⟨w, hw⟩ (hacc t h2)
            · rw [List.mem_singleton] at h2
              subst h2
              rw [hp2]
              exact hDs.2 w hw
          · intro t ht hts w hw
            rcases List.mem_append.mp ht with h2 | h2
            · exact absurd ⟨w, hw⟩ (hacc t h2)
            · rw [List.mem_singleton] at h2
              subst h2
              exact absurd hts (lt_irrefl t)
        · have hbb : bestBetter (some b) p = decide (p.length < b.length) := rfl
          by_cases hlt : p.length < b.length
          · rw [hbb, decide_eq_true hlt, if_pos rfl]
            simp only [BestAcc] at hacc ⊢
            obtain ⟨s0, hs0, hw0, hmin0, htie0⟩ := hacc
            refine ⟨s, List.mem_append_right _ (List.mem_singleton_self s), hp1, ?_, ?_⟩
            · intro t ht w hw
              rcases List.mem_append.mp ht with h2 | h2
              · have := hmin0 t h2 w hw
                omega
              · rw [List.mem_singleton] at h2
                subst h2
                rw [hp2]
                exact hDs.2 w hw
            · intro t ht hts w hw
              rcases List.mem_append.mp ht with h2 | h2
              · have := hmin0 t h2 w hw
                omega
              · rw [List.mem_singleton] at h2
                subst h2
                exact absurd hts (lt_irrefl t)
          · rw [hbb, decide_eq_false hlt, if_neg (by simp)]
            simp only [BestAcc] at hacc ⊢
            obtain ⟨s0, hs0, hw0, hmin0, htie0⟩ := hacc
            refine ⟨s0, List.mem_append_left _ hs0, hw0, ?_, ?_⟩
            · intro t ht w hw
              rcases List.mem_append.mp ht with h2 | h2
              · exact hmin0 t h2 w hw
              · rw [List.mem_singleton] at h2
                subst h2
                have h3 := hDs.2 w hw
                omega
            · intro t ht hts w hw
              rcases List.mem_append.mp ht with h2 | h2
              · exact htie0 t h2 hts w hw
              · rw [List.mem_singleton] at h2
                subst h2
                exact absurd hts (not_lt_of_gt (hcross s0 hs0))
      · rw [hrun.1 hR]
        rcases best with _ | b
        · simp only [BestAcc] at hacc ⊢
          intro t ht
          rcases List.mem_append.mp ht with h2 | h2
          · exact hacc t h2
          · rw [List.mem_singleton] at h2
            subst h2
            exact hR
        · simp only [BestAcc] at hacc ⊢
          obtain ⟨s0, hs0, hw0, hmin0, htie0⟩ := hacc
          refine ⟨s0, List.mem_append_left _ hs0, hw0, ?_, ?_⟩
          · intro t ht w hw
            rcases List.mem_append.mp ht with h2 | h2
            · exact hmin0 t h2 w hw
            · rw [List.mem_singleton] at h2
              subst h2
              exact absurd ⟨w, hw⟩ hR
          · intro t ht hts w hw
            rcases List.mem_append.mp ht with h2 | h2
            · exact htie0 t h2 hts w hw
            · rw [List.mem_singleton] at h2
              subst h2
              exact absurd ⟨w, hw⟩ hR
    have hp' : List.Pairwise (fun x y => x < y) ((done ++ [s]) ++ ss') := by
      rw [List.append_assoc]
      exact hp
    have hres := ih (done ++ [s]) (bfsLoop g target [(s, [s])] {s} best) hp' htn' hacc1
    rw [List.append_assoc] at hres
    exact hres
/-- Claim C4: for every target IP, edge set, and non-empty set of directly
reachable start IPs, the path planner returns the single-element path
[target] when some reachable start equals the target; otherwise the
returned path (when any) is a walk from some start to the target of
globally minimal length over all reachable starts, with the first start
in sorted order winning among equal-length paths (every strictly smaller
start admits only strictly longer walks), and when no path is returned no
start reaches the target at all; and it returns no path when the
reachable-device list is empty. -/
theorem claim_C4 (target_ip : String) (reachable_devices : List Device)
    (edges : List (String × String)) (startIps : Finset String) :
    (reachable_devices = [] →
      find_path_to_device target_ip reachable_devices edges startIps = none) ∧
    (reachable_devices ≠ [] → startIps ≠ ∅ →
      (target_ip ∈ startIps →
        find_path_to_device target_ip reachable_devices edges startIps = some [target_ip]) ∧
      (target_ip ∉ startIps →
        match find_path_to_device target_ip reachable_devices edges startIps with
        | none => ∀ t ∈ startIps, ¬ Reaches (buildAdj edges) t target_ip
        | some p => ∃ s ∈ startIps, WalkFromTo (buildAdj edges) s target_ip p ∧
            (∀ t ∈ startIps, ∀ w, WalkFromTo (buildAdj edges) t target_ip w →
              p.length ≤ w.length) ∧
            (∀ t ∈ startIps, t < s → ∀ w, WalkFromTo (buildAdj edges) t target_ip w →
              p.length < w.length))) := by
  constructor
  · intro h
    subst h
    rfl
  · intro hne hse
    have h1 : reachable_devices.isEmpty = false := by
      cases reachable_devices with
      | nil => exact absurd rfl hne
      | cons d ds => rfl
    have hselim : find_path_to_device target_ip reachable_devices edges startIps =
        tryStartsBfs (buildAdj edges) target_ip (startIps.sort (fun x y => x ≤ y)) none := by
      simp [find_path_to_device, h1, hse]
    constructor
    · intro hmem
      rw [hselim]
      exact tryStarts_target_mem (buildAdj edges) target_ip _ none
        ((Finset.mem_sort _).mpr hmem)
    · intro hnmem
      rw [hselim]
      have hsorted := Finset.sort_sorted_lt startIps
      have htn : target_ip ∉ startIps.sort (fun x y => x ≤ y) :=
        fun h => hnmem ((Finset.mem_sort _).mp h)
      have hacc := tryStarts_acc (buildAdj edges) target_ip
        (startIps.sort (fun x y => x ≤ y)) [] none
        (by simpa using hsorted) htn
        (by intro t ht; exact absurd ht (List.not_mem_nil t))
      rw [List.nil_append] at hacc
      rcases hout : tryStartsBfs (buildAdj edges) target_ip
          (startIps.sort (fun x y => x ≤ y)) none with _ | p
      · rw [hout] at hacc
        simp only [BestAcc] at hacc
        intro t ht
        exact hacc t ((Finset.mem_sort _).mpr ht)
      · rw [hout] at hacc
        simp only [BestAcc] at hacc
        obtain ⟨s, hsmem, hw, hmin, htie⟩ := hacc
        exact ⟨s, (Finset.mem_sort _).mp hsmem, hw,
          fun t ht => hmin t ((Finset.mem_sort _).mpr ht),
          fun t ht => htie t ((Finset.mem_sort _).mpr ht)⟩

theorem claim_C4_witness :
    (([({ oid := "a", host := "10.0.0.1", display_name := "r1" } : Device)] : List Device) ≠ [] ∧
      ({"10.0.0.1"} : Finset String) ≠ ∅ ∧
      "10.0.0.1" ∈ ({"10.0.0.1"} : Finset String)) ∧
    find_path_to_device "10.0.0.1"
      [({ oid := "a", host := "10.0.0.1", display_name := "r1" } : Device)]
      [("10.0.0.1", "10.0.0.2")] {"10.0.0.1"} = some ["10.0.0.1"] :=
  ⟨⟨by simp, by decide, by decide⟩,
    ((claim_C4 "10.0.0.1"
        [({ oid := "a", host := "10.0.0.1", display_name := "r1" } : Device)]
        [("10.0.0.1", "10.0.0.2")] {"10.0.0.1"}).2 (by simp) (by decide)).1 (by decide)⟩

end Topologist
